import Mathlib

/-!
Asset chaincode (`chaincode/smartcontract.go`).

A shallow embedding of the asset smart contract and of the two external
collaborators it calls: the ledger stub (`GetState`, `PutState`, `DelState`)
and Go's `encoding/json` codec, specialised to the `Asset` struct.

Conventions of the embedding:

* Go `string` and `[]byte` values are sequences of bytes. A string need not be
  valid UTF-8; `json.Marshal` writes each byte that is not part of a valid
  encoding as the escape of U+FFFD, which the model follows.
* Go `int` is the 64-bit signed integer type; it is modelled as the subtype
  `GoInt` of `Int`.  The contract performs no arithmetic on it.
* A Go `error` result is `Except GoError _`; every operation also returns the
  ledger stub it leaves behind.
-/

namespace Chaincode

/-! ## Machine integers, bytes and strings -/

/-- Smallest value of Go's 64-bit `int`. -/
def minInt : Int := -9223372036854775808

/-- Largest value of Go's 64-bit `int`. -/
def maxInt : Int := 9223372036854775807

/-- Go's `int` on the 64-bit platforms the contract runs on. -/
abbrev GoInt := { i : Int // minInt ≤ i ∧ i ≤ maxInt }

/-- A byte. -/
abbrev Byte := Fin 256

/-- Serialized data, Go's `[]byte`. -/
abbrev Bytes := List Byte

/-- Go's `string`: any sequence of bytes. -/
abbrev GoString := List Byte

/-- The byte with the given value (modulo 256). -/
def byte (n : Nat) : Byte := ⟨n % 256, Nat.mod_lt n (by decide)⟩

/-! ## UTF-8 (`unicode/utf8`) -/

/-- The call `utf8.EncodeRune`: the UTF-8 bytes of a rune; a surrogate or a value above
U+10FFFF is written as U+FFFD. -/
def encodeRune (r : Nat) : List Byte :=
  if r < 0x80 then [byte r]
  else if r < 0x800 then [byte (0xC0 + r / 64), byte (0x80 + r % 64)]
  else if (0xD800 ≤ r ∧ r < 0xE000) ∨ 0x10FFFF < r then [byte 0xEF, byte 0xBF, byte 0xBD]
  else if r < 0x10000 then
    [byte (0xE0 + r / 4096), byte (0x80 + r / 64 % 64), byte (0x80 + r % 64)]
  else
    [byte (0xF0 + r / 262144), byte (0x80 + r / 4096 % 64), byte (0x80 + r / 64 % 64),
      byte (0x80 + r % 64)]

/-- The bytes of a sequence of runes. -/
def encodeRunes : List Nat → List Byte
  | [] => []
  | r :: rs => encodeRune r ++ encodeRunes rs

/-- The bytes of a string literal of the source. -/
def str (s : String) : GoString := encodeRunes (s.data.map Char.toNat)

/-- For a leading byte of a multi-byte encoding: the length of the encoding and
the range accepted for the second byte (the tables `first` and
`acceptRanges`). -/
def leadInfo (p0 : Nat) : Option (Nat × Nat × Nat) :=
  if 0xC2 ≤ p0 ∧ p0 ≤ 0xDF then some (2, 0x80, 0xBF)
  else if p0 = 0xE0 then some (3, 0xA0, 0xBF)
  else if p0 = 0xED then some (3, 0x80, 0x9F)
  else if 0xE1 ≤ p0 ∧ p0 ≤ 0xEF then some (3, 0x80, 0xBF)
  else if p0 = 0xF0 then some (4, 0x90, 0xBF)
  else if p0 = 0xF4 then some (4, 0x80, 0x8F)
  else if 0xF1 ≤ p0 ∧ p0 ≤ 0xF3 then some (4, 0x80, 0xBF)
  else none

/-- The call `utf8.DecodeRune`: the first rune of the input and the number of bytes it
takes. An encoding that is invalid or cut short gives U+FFFD and one byte. -/
def decodeRune : List Byte → Nat × Nat
  | [] => (0xFFFD, 0)
  | p0 :: rest =>
    if p0.val < 0x80 then (p0.val, 1)
    else
      match leadInfo p0.val with
      | none => (0xFFFD, 1)
      | some (sz, lo, hi) =>
        match rest with
        | [] => (0xFFFD, 1)
        | b1 :: rest1 =>
          if b1.val < lo ∨ hi < b1.val then (0xFFFD, 1)
          else if sz ≤ 2 then (p0.val % 32 * 64 + b1.val % 64, 2)
          else
            match rest1 with
            | [] => (0xFFFD, 1)
            | b2 :: rest2 =>
              if b2.val < 0x80 ∨ 0xBF < b2.val then (0xFFFD, 1)
              else if sz ≤ 3 then (p0.val % 16 * 4096 + b1.val % 64 * 64 + b2.val % 64, 3)
              else
                match rest2 with
                | [] => (0xFFFD, 1)
                | b3 :: _ =>
                  if b3.val < 0x80 ∨ 0xBF < b3.val then (0xFFFD, 1)
                  else
                    (p0.val % 8 * 262144 + b1.val % 64 * 4096 + b2.val % 64 * 64
                      + b3.val % 64, 4)

/-- A Unicode scalar value: a code point that is not a surrogate. -/
def isScalar (r : Nat) : Prop := r < 0xD800 ∨ (0xE000 ≤ r ∧ r < 0x110000)

/-- Valid UTF-8: the encoding of a sequence of Unicode scalar values. -/
def ValidUTF8 (s : GoString) : Prop :=
  ∃ rs : List Nat, (∀ r ∈ rs, isScalar r) ∧ s = encodeRunes rs

/-! ## Data model -/

/-- The `Asset` struct, fields in declaration order. -/
structure Asset where
  Availibility : GoInt
  ID : GoString
  Wallet : GoInt
  Latency : GoInt
deriving DecidableEq

/-- The errors the contract can return. -/
inductive GoError where
  /-- An error built by `fmt.Errorf`, with its message. -/
  | errorf (msg : GoString)
  /-- An error returned by the ledger stub and passed on unchanged. -/
  | stub (msg : GoString)
  /-- A `*json.SyntaxError`: the data is not a JSON text. -/
  | syntaxError
  /-- A `*json.UnmarshalTypeError`: a JSON value does not fit its Go target. -/
  | unmarshalTypeError
deriving DecidableEq

/-! ## `json.Marshal` for `Asset` -/

/-- Decimal digit `d < 10` as a byte. -/
def digitChar (d : Nat) : Byte := byte (48 + d)

/-- Digits of `u`, most significant first, written in front of `acc`
(`strconv.formatBits`, base 10). `fuel` bounds the number of digits. -/
def formatDigits : Nat → Nat → List Byte → List Byte
  | 0, _, acc => acc
  | fuel + 1, u, acc =>
    if u < 10 then digitChar u :: acc
    else formatDigits fuel (u / 10) (digitChar (u % 10) :: acc)

/-- The call `strconv.AppendInt(_, i, 10)`: an optional minus sign and the decimal
digits of the magnitude. Twenty digits cover every 64-bit value. -/
def formatInt (i : Int) : List Byte :=
  if i < 0 then byte 45 :: formatDigits 20 i.natAbs [] else formatDigits 20 i.natAbs []

/-- Lower-case hexadecimal digit of `d < 16`. -/
def hexChar (d : Nat) : Byte :=
  if d < 10 then byte (48 + d) else byte (87 + d)

/-- How `json.Marshal` writes an ASCII byte of a string (HTML escaping on):
the quote and the backslash behind a backslash, the control characters and
`<`, `>`, `&` as escapes, any other byte as it is. -/
def escapeByte (b : Byte) : List Byte :=
  if b.val = 34 ∨ b.val = 92 then [byte 92, b]
  else if b.val = 8 then [byte 92, byte 98]
  else if b.val = 12 then [byte 92, byte 102]
  else if b.val = 10 then [byte 92, byte 110]
  else if b.val = 13 then [byte 92, byte 114]
  else if b.val = 9 then [byte 92, byte 116]
  else if b.val < 32 ∨ b.val = 60 ∨ b.val = 62 ∨ b.val = 38 then
    [byte 92, byte 117, byte 48, byte 48, hexChar (b.val / 16), hexChar (b.val % 16)]
  else [b]

/-- The loop of `appendString`: the body of a JSON string literal for `src`,
without the surrounding quotes. A byte that does not start a valid encoding is
written as the escape of U+FFFD; U+2028 and U+2029 are escaped. Every step
takes at least one byte, so the length of `src` is enough fuel. -/
def appendString : Nat → List Byte → List Byte
  | 0, _ => []
  | _ + 1, [] => []
  | fuel + 1, b :: rest =>
    if b.val < 0x80 then escapeByte b ++ appendString fuel rest
    else
      match decodeRune (b :: rest) with
      | (c, size) =>
        if c = 0xFFFD ∧ size = 1 then
          [byte 92, byte 117, byte 102, byte 102, byte 102, byte 100] ++ appendString fuel rest
        else if c = 0x2028 then
          [byte 92, byte 117, byte 50, byte 48, byte 50, byte 56]
            ++ appendString fuel ((b :: rest).drop size)
        else if c = 0x2029 then
          [byte 92, byte 117, byte 50, byte 48, byte 50, byte 57]
            ++ appendString fuel ((b :: rest).drop size)
        else (b :: rest).take size ++ appendString fuel ((b :: rest).drop size)

/-- A JSON string literal for `s`. -/
def quote (s : GoString) : List Byte :=
  byte 34 :: (appendString s.length s ++ [byte 34])

/-- The call `json.Marshal(asset)`: the fields are written in the order in which the
struct declares them. It cannot fail for this struct. -/
def Marshal (a : Asset) : Bytes :=
  str "\x7b\"Availibility\":" ++ formatInt a.Availibility.val
    ++ str ",\"ID\":" ++ quote a.ID
    ++ str ",\"Wallet\":" ++ formatInt a.Wallet.val
    ++ str ",\"Latency\":" ++ formatInt a.Latency.val
    ++ [byte 125]

/-! ## `json.Unmarshal` into `Asset`

`json.Unmarshal` first checks that the whole input is one JSON text and then
stores the value into the target. The model parses the input into a tree
(`parseValue`, a syntax error when it fails) and stores the tree into an
`Asset` (`decodeAsset`, a type error when a value does not fit). Bytes are
compared by their ASCII codes. -/

/-- A parsed JSON value. A number keeps its literal text, a string holds its
decoded bytes. -/
inductive Json where
  | null
  | bool (b : Bool)
  | number (lit : List Byte)
  | string (s : List Byte)
  | array (elems : List Json)
  | object (members : List (List Byte × Json))

/-- JSON white space: space, tab, carriage return, line feed. -/
def isSpace (c : Byte) : Bool :=
  decide (c.val = 32) || decide (c.val = 9) || decide (c.val = 13) || decide (c.val = 10)

/-- Drop leading white space. -/
def skipSpace : List Byte → List Byte
  | [] => []
  | c :: cs => if isSpace c then skipSpace cs else c :: cs

/-- Decimal digit test. -/
def isDigit (c : Byte) : Bool :=
  decide (48 ≤ c.val) && decide (c.val ≤ 57)

/-- Value of a hexadecimal digit of either case. -/
def hexVal (c : Byte) : Option Nat :=
  if 48 ≤ c.val ∧ c.val ≤ 57 then some (c.val - 48)
  else if 97 ≤ c.val ∧ c.val ≤ 102 then some (c.val - 87)
  else if 65 ≤ c.val ∧ c.val ≤ 70 then some (c.val - 55)
  else none

/-- Value of four hexadecimal digits (`getu4`). -/
def getu4 (h1 h2 h3 h4 : Byte) : Option Nat :=
  match hexVal h1, hexVal h2, hexVal h3, hexVal h4 with
  | some a, some b, some c, some d => some (((a * 16 + b) * 16 + c) * 16 + d)
  | _, _, _, _ => none

/-- The character a one-letter escape stands for: the quote, the backslash and
the slash stand for themselves, `b f n r t` for control characters. -/
def unescape (e : Byte) : Option Nat :=
  if e.val = 34 ∨ e.val = 92 ∨ e.val = 47 then some e.val
  else if e.val = 98 then some 8
  else if e.val = 102 then some 12
  else if e.val = 110 then some 10
  else if e.val = 114 then some 13
  else if e.val = 116 then some 9
  else none

/-- Put decoded bytes in front of the result of the rest of a literal. -/
def prepend (pre : List Byte) :
    Option (List Byte × List Byte) → Option (List Byte × List Byte)
  | none => none
  | some (s, rest) => some (pre ++ s, rest)

/-- When the input starts with a `\uXXXX` escape of a low surrogate, its value. -/
def lowSurrogate (cs : List Byte) : Option Nat :=
  match cs with
  | b :: u :: l1 :: l2 :: l3 :: l4 :: _ =>
    if b.val = 92 ∧ u.val = 117 then
      match getu4 l1 l2 l3 l4 with
      | some lo => if 0xDC00 ≤ lo ∧ lo < 0xE000 then some lo else none
      | none => none
    else none
  | _ => none

/-- Decode the escape that follows a backslash: the rune it stands for and the
input after the escape. A `\u` escape of a surrogate is combined with a
following `\u` escape of a low surrogate, or else replaced by U+FFFD. -/
def decodeEscape : List Byte → Option (Nat × List Byte)
  | [] => none
  | e :: r =>
    if e.val = 117 then
      match r with
      | h1 :: h2 :: h3 :: h4 :: r1 =>
        match getu4 h1 h2 h3 h4 with
        | none => none
        | some rr =>
          if 0xD800 ≤ rr ∧ rr < 0xE000 then
            match lowSurrogate r1 with
            | some lo =>
              if rr < 0xDC00 then
                some ((rr - 0xD800) * 1024 + (lo - 0xDC00) + 0x10000, r1.drop 6)
              else some (0xFFFD, r1)
            | none => some (0xFFFD, r1)
          else some (rr, r1)
      | _ => none
    else
      match unescape e with
      | some d => some (d, r)
      | none => none

/-- The loop that reads a string literal, one item per unit of fuel: an ASCII
byte is copied, an escape is decoded, and any other byte is read as UTF-8 and
written back as UTF-8, so that a byte which starts no valid encoding becomes
U+FFFD. -/
def parseStringLoop : Nat → List Byte → Option (List Byte × List Byte)
  | 0, _ => none
  | _ + 1, [] => none
  | fuel + 1, c :: rest =>
    if c.val = 34 then some ([], rest)
    else if c.val = 92 then
      match decodeEscape rest with
      | none => none
      | some (r, rest1) => prepend (encodeRune r) (parseStringLoop fuel rest1)
    else if c.val < 32 then none
    else if c.val < 0x80 then prepend [c] (parseStringLoop fuel rest)
    else
      match decodeRune (c :: rest) with
      | (rr, size) => prepend (encodeRune rr) (parseStringLoop fuel ((c :: rest).drop size))

/-- Read a string literal whose opening quote has been consumed: the decoded
bytes and the input after the closing quote. Raw control characters and bad
escapes are errors. Every item takes at least one byte, so the length of the
input is enough fuel. -/
def parseString (cs : List Byte) : Option (List Byte × List Byte) :=
  parseStringLoop cs.length cs

/-- Split off the leading decimal digits. -/
def spanDigits : List Byte → List Byte × List Byte
  | [] => ([], [])
  | c :: cs =>
    if isDigit c then ((spanDigits cs).1.cons c, (spanDigits cs).2) else ([], c :: cs)

/-- Integer part of a number: `0`, or a non-zero digit followed by digits. -/
def lexInt : List Byte → Option (List Byte × List Byte)
  | [] => none
  | c :: cs =>
    if c.val = 48 then some ([c], cs)
    else if isDigit c then some (c :: (spanDigits cs).1, (spanDigits cs).2)
    else none

/-- Optional fraction: a dot followed by at least one digit. -/
def lexFrac : List Byte → Option (List Byte × List Byte)
  | [] => some ([], [])
  | c :: cs =>
    if c.val = 46 then
      if (spanDigits cs).1 = [] then none else some (c :: (spanDigits cs).1, (spanDigits cs).2)
    else some ([], c :: cs)

/-- Digits of an exponent, at least one. -/
def lexExpDigits (pre : List Byte) (cs : List Byte) : Option (List Byte × List Byte) :=
  if (spanDigits cs).1 = [] then none else some (pre ++ (spanDigits cs).1, (spanDigits cs).2)

/-- Optional exponent: `e` or `E`, an optional sign, at least one digit. -/
def lexExp : List Byte → Option (List Byte × List Byte)
  | [] => some ([], [])
  | c :: cs =>
    if c.val = 101 ∨ c.val = 69 then
      match cs with
      | [] => none
      | s :: r => if s.val = 43 ∨ s.val = 45 then lexExpDigits [c, s] r else lexExpDigits [c] cs
    else some ([], c :: cs)

/-- Integer part, fraction and exponent of a number. -/
def lexUnsigned (cs : List Byte) : Option (List Byte × List Byte) :=
  match lexInt cs with
  | none => none
  | some (i, r1) =>
    match lexFrac r1 with
    | none => none
    | some (f, r2) =>
      match lexExp r2 with
      | none => none
      | some (e, r3) => some (i ++ f ++ e, r3)

/-- Read a number literal: its text and the input after it. -/
def lexNumber : List Byte → Option (List Byte × List Byte)
  | [] => none
  | c :: cs =>
    if c.val = 45 then
      match lexUnsigned cs with
      | none => none
      | some (l, r) => some (c :: l, r)
    else lexUnsigned (c :: cs)

/-- Deepest nesting of arrays and objects the scanner accepts. -/
def maxNestingDepth : Nat := 10000

mutual
/-- Read one JSON value after optional white space. `depth` counts the open
arrays and objects; `fuel` bounds the number of nested calls. -/
def parseValue : Nat → Nat → List Byte → Option (Json × List Byte)
  | 0, _, _ => none
  | fuel + 1, depth, cs =>
    match skipSpace cs with
    | [] => none
    | c :: r =>
      if c.val = 123 then
        if maxNestingDepth ≤ depth then none
        else
          match skipSpace r with
          | [] => none
          | c1 :: r1 =>
            if c1.val = 125 then some (Json.object [], r1)
            else parseMembers fuel (depth + 1) (c1 :: r1) []
      else if c.val = 91 then
        if maxNestingDepth ≤ depth then none
        else
          match skipSpace r with
          | [] => none
          | c1 :: r1 =>
            if c1.val = 93 then some (Json.array [], r1)
            else parseElements fuel (depth + 1) (c1 :: r1) []
      else if c.val = 34 then
        match parseString r with
        | none => none
        | some (s, r1) => some (Json.string s, r1)
      else if c.val = 116 then
        match r with
        | a :: b :: d :: r1 =>
          if a.val = 114 ∧ b.val = 117 ∧ d.val = 101 then some (Json.bool true, r1) else none
        | _ => none
      else if c.val = 102 then
        match r with
        | a :: b :: d :: e :: r1 =>
          if a.val = 97 ∧ b.val = 108 ∧ d.val = 115 ∧ e.val = 101 then
            some (Json.bool false, r1)
          else none
        | _ => none
      else if c.val = 110 then
        match r with
        | a :: b :: d :: r1 =>
          if a.val = 117 ∧ b.val = 108 ∧ d.val = 108 then some (Json.null, r1) else none
        | _ => none
      else
        match lexNumber (c :: r) with
        | none => none
        | some (l, r1) => some (Json.number l, r1)
/-- Read the members of an object up to its closing brace; `acc` holds the
members read so far, last one first. -/
def parseMembers : Nat → Nat → List Byte → List (List Byte × Json) → Option (Json × List Byte)
  | 0, _, _, _ => none
  | fuel + 1, depth, cs, acc =>
    match skipSpace cs with
    | [] => none
    | q :: r =>
      if q.val = 34 then
        match parseString r with
        | none => none
        | some (key, r1) =>
          match skipSpace r1 with
          | [] => none
          | colon :: r2 =>
            if colon.val = 58 then
              match parseValue fuel depth r2 with
              | none => none
              | some (v, r3) =>
                match skipSpace r3 with
                | [] => none
                | sep :: r4 =>
                  if sep.val = 44 then parseMembers fuel depth r4 ((key, v) :: acc)
                  else if sep.val = 125 then some (Json.object (((key, v) :: acc).reverse), r4)
                  else none
            else none
      else none
/-- Read the elements of an array up to its closing bracket. -/
def parseElements : Nat → Nat → List Byte → List Json → Option (Json × List Byte)
  | 0, _, _, _ => none
  | fuel + 1, depth, cs, acc =>
    match parseValue fuel depth cs with
    | none => none
    | some (v, r1) =>
      match skipSpace r1 with
      | [] => none
      | sep :: r2 =>
        if sep.val = 44 then parseElements fuel depth r2 (v :: acc)
        else if sep.val = 93 then some (Json.array ((v :: acc).reverse), r2)
        else none
end

/-- Value of a run of decimal digits; `none` when it is empty or holds another
byte (`strconv.ParseUint`, base 10, before the range check). -/
def parseDigits : List Byte → Option Nat
  | [] => none
  | c :: cs =>
    if (c :: cs).all isDigit then
      some ((c :: cs).foldl (fun acc d => acc * 10 + (d.val - 48)) 0)
    else none

/-- The range check of `strconv.ParseInt` for 64 bits. -/
def checkRange (i : Int) : Option GoInt :=
  if h : minInt ≤ i ∧ i ≤ maxInt then some ⟨i, h⟩ else none

/-- The call `strconv.ParseInt(lit, 10, 64)`: an optional sign, decimal digits only,
and the value must fit in 64 bits. -/
def parseInt : List Byte → Option GoInt
  | [] => none
  | c :: cs =>
    if c.val = 45 then
      match parseDigits cs with
      | none => none
      | some n => checkRange (-(Int.ofNat n))
    else if c.val = 43 then
      match parseDigits cs with
      | none => none
      | some n => checkRange (Int.ofNat n)
    else
      match parseDigits (c :: cs) with
      | none => none
      | some n => checkRange (Int.ofNat n)

/-- The fields of `Asset`. -/
inductive Field where
  | Availibility
  | ID
  | Wallet
  | Latency
deriving DecidableEq

/-- Case folding of an object key: an ASCII lower-case letter becomes upper
case. Only ASCII letters matter here: no field name holds a letter with a
non-ASCII case variant, so a key with another byte matches no field. -/
def foldName (key : List Byte) : List Byte :=
  key.map (fun b => if 97 ≤ b.val ∧ b.val ≤ 122 then byte (b.val - 32) else b)

/-- The field an object key selects: the names are compared without regard to
case; a key that selects none is skipped. -/
def findField (key : List Byte) : Option Field :=
  if foldName key = str "AVAILIBILITY" then some Field.Availibility
  else if foldName key = str "ID" then some Field.ID
  else if foldName key = str "WALLET" then some Field.Wallet
  else if foldName key = str "LATENCY" then some Field.Latency
  else none

/-- Store a JSON value into an `int` field: the new field value, or `none` for
a type error (which leaves the field as it was). `null` changes nothing. -/
def storeInt (v : Json) (old : GoInt) : Option GoInt :=
  match v with
  | Json.null => some old
  | Json.number lit => parseInt lit
  | _ => none

/-- Store a JSON value into a `string` field. -/
def storeString (v : Json) (old : GoString) : Option GoString :=
  match v with
  | Json.null => some old
  | Json.string s => some s
  | _ => none

/-- Store one object member. The flag records whether a type error has been
saved; decoding goes on after one. -/
def decodeMember (st : Asset × Bool) (m : List Byte × Json) : Asset × Bool :=
  match findField m.1 with
  | none => st
  | some Field.Availibility =>
    match storeInt m.2 st.1.Availibility with
    | some n => ({ st.1 with Availibility := n }, st.2)
    | none => (st.1, true)
  | some Field.ID =>
    match storeString m.2 st.1.ID with
    | some s => ({ st.1 with ID := s }, st.2)
    | none => (st.1, true)
  | some Field.Wallet =>
    match storeInt m.2 st.1.Wallet with
    | some n => ({ st.1 with Wallet := n }, st.2)
    | none => (st.1, true)
  | some Field.Latency =>
    match storeInt m.2 st.1.Latency with
    | some n => ({ st.1 with Latency := n }, st.2)
    | none => (st.1, true)

/-- Zero of `int`. -/
def zeroInt : GoInt := ⟨0, by decide⟩

/-- The zero value of `Asset` (`var asset Asset`). -/
def zeroAsset : Asset :=
  { Availibility := zeroInt, ID := [], Wallet := zeroInt, Latency := zeroInt }

/-- Store a JSON value into a zero `Asset`: an object sets the fields its
members name, `null` leaves the zero value, anything else is a type error. -/
def decodeAsset : Json → Except GoError Asset
  | Json.null => Except.ok zeroAsset
  | Json.object members =>
    match members.foldl decodeMember (zeroAsset, false) with
    | (a, false) => Except.ok a
    | (_, true) => Except.error GoError.unmarshalTypeError
  | _ => Except.error GoError.unmarshalTypeError

/-- The call `json.Unmarshal(data, &asset)` on a zero `asset`. A level of nesting
takes two units of fuel and at least its two brackets, a further member or
element one unit and at least two bytes, so the length of the input is
enough fuel. -/
def Unmarshal (data : Bytes) : Except GoError Asset :=
  match parseValue (data.length + 1) 0 data with
  | none => Except.error GoError.syntaxError
  | some (j, rest) =>
    match skipSpace rest with
    | [] => decodeAsset j
    | _ :: _ => Except.error GoError.syntaxError

/-! ## The ledger stub

The world state is reached only through `ctx.GetStub()`. Its three calls can
each return an error; when they do not, they act on a map from keys to
values. -/

/-- The ledger as the contract sees it: the world state and, for each call,
the error it returns (if any). -/
structure Stub where
  /-- The value stored at each key; `none` is Go's `nil`, a missing key. -/
  state : GoString → Option Bytes
  /-- The error of `GetState(key)`, if it fails. -/
  getErr : GoString → Option GoString
  /-- The error of `PutState(key, value)`, if it fails. -/
  putErr : GoString → Bytes → Option GoString
  /-- The error of `DelState(key)`, if it fails. -/
  delErr : GoString → Option GoString

/-- The call `GetState(key)`: the stored value, `none` for a missing key. -/
def Stub.GetState (ctx : Stub) (key : GoString) : Except GoString (Option Bytes) :=
  match ctx.getErr key with
  | some err => Except.error err
  | none => Except.ok (ctx.state key)

/-- Storing a value at `key`. -/
def Stub.store (ctx : Stub) (key : GoString) (value : Bytes) : Stub :=
  { ctx with state := fun k => if k = key then some value else ctx.state k }

/-- Removing the value at `key`. -/
def Stub.remove (ctx : Stub) (key : GoString) : Stub :=
  { ctx with state := fun k => if k = key then none else ctx.state k }

/-- The call `PutState(key, value)`: the ledger with `value` stored at `key`. -/
def Stub.PutState (ctx : Stub) (key : GoString) (value : Bytes) : Except GoString Stub :=
  match ctx.putErr key value with
  | some err => Except.error err
  | none =>
    Except.ok (ctx.store key value)

/-- The call `DelState(key)`: the ledger with no value at `key`. -/
def Stub.DelState (ctx : Stub) (key : GoString) : Except GoString Stub :=
  match ctx.delErr key with
  | some err => Except.error err
  | none => Except.ok (ctx.remove key)

/-! ## The contract

Every operation returns its Go result together with the ledger it leaves. -/

/-- The seed record of `InitContract`. -/
def seedAsset : Asset :=
  { ID := (str "asset1"), Availibility := ⟨99, by decide⟩, Wallet := ⟨100, by decide⟩,
    Latency := ⟨99, by decide⟩ }

/-- The loop of `InitContract` over its list of assets. -/
def initLoop : List Asset → Stub → Except GoError Unit × Stub
  | [], ctx => (Except.ok (), ctx)
  | asset :: rest, ctx =>
    match ctx.PutState asset.ID (Marshal asset) with
    | Except.error err =>
      (Except.error (GoError.errorf ((str "failed to put to world state. ") ++ err)), ctx)
    | Except.ok ctx1 => initLoop rest ctx1

/-- `InitContract` adds a base set of assets to the ledger. -/
def InitContract (ctx : Stub) : Except GoError Unit × Stub :=
  initLoop [seedAsset] ctx

/-- `AssetExists` returns true when an asset with the given ID exists in world state. -/
def AssetExists (ctx : Stub) (id : GoString) : Except GoError Bool × Stub :=
  match ctx.GetState id with
  | Except.error err =>
    (Except.error (GoError.errorf ((str "failed to read from world state: ") ++ err)), ctx)
  | Except.ok assetJSON => (Except.ok assetJSON.isSome, ctx)

/-- `AddPracticalAsset` issues a new asset to the world state with given details. -/
def AddPracticalAsset (ctx : Stub) (id : GoString) (availibility wallet latency : GoInt) :
    Except GoError Unit × Stub :=
  match AssetExists ctx id with
  | (Except.error err, ctx1) => (Except.error err, ctx1)
  | (Except.ok «exists», ctx1) =>
    if «exists» then
      (Except.error (GoError.errorf ((str "the asset ") ++ id ++ (str " already exists"))), ctx1)
    else
      let asset : Asset :=
        { ID := id, Availibility := availibility, Wallet := wallet, Latency := latency }
      match ctx1.PutState id (Marshal asset) with
      | Except.error err => (Except.error (GoError.stub err), ctx1)
      | Except.ok ctx2 => (Except.ok (), ctx2)

/-- `ReadAsset` returns the asset stored in the world state with given id. -/
def ReadAsset (ctx : Stub) (id : GoString) : Except GoError Asset × Stub :=
  match ctx.GetState id with
  | Except.error err =>
    (Except.error (GoError.errorf ((str "failed to read from world state: ") ++ err)), ctx)
  | Except.ok none =>
    (Except.error (GoError.errorf ((str "the asset ") ++ id ++ (str " does not exist"))), ctx)
  | Except.ok (some assetJSON) =>
    match Unmarshal assetJSON with
    | Except.error err => (Except.error err, ctx)
    | Except.ok asset => (Except.ok asset, ctx)

/-- `UpdateAsset` updates an existing asset in the world state with provided parameters. -/
def UpdateAsset (ctx : Stub) (id : GoString) (availibility wallet latency : GoInt) :
    Except GoError Unit × Stub :=
  match AssetExists ctx id with
  | (Except.error err, ctx1) => (Except.error err, ctx1)
  | (Except.ok «exists», ctx1) =>
    if !«exists» then
      (Except.error (GoError.errorf ((str "the asset ") ++ id ++ (str " does not exist"))), ctx1)
    else
      let asset : Asset :=
        { ID := id, Availibility := availibility, Wallet := wallet, Latency := latency }
      match ctx1.PutState id (Marshal asset) with
      | Except.error err => (Except.error (GoError.stub err), ctx1)
      | Except.ok ctx2 => (Except.ok (), ctx2)

/-- `DeleteAsset` deletes a given asset from the world state. -/
def DeleteAsset (ctx : Stub) (id : GoString) : Except GoError Unit × Stub :=
  match AssetExists ctx id with
  | (Except.error err, ctx1) => (Except.error err, ctx1)
  | (Except.ok «exists», ctx1) =>
    if !«exists» then
      (Except.error (GoError.errorf ((str "the asset ") ++ id ++ (str " does not exist"))), ctx1)
    else
      match ctx1.DelState id with
      | Except.error err => (Except.error (GoError.stub err), ctx1)
      | Except.ok ctx2 => (Except.ok (), ctx2)

/-- What `ComputeParameters` leaves behind: its result, the text it printed
and the ledger. -/
structure Computed where
  result : Except GoError GoString
  printed : GoString
  ctx : Stub

/-- `ComputeParameters` reads `asset1` and `asset2` and compares availabilities.
The result of the second read is dropped, `err` is still the error of the first
read, and both sides of the comparison come from the first asset. -/
def ComputeParameters (ctx : Stub) : Computed :=
  match ReadAsset ctx (str "asset1") with
  | (Except.error err, ctx1) => { result := Except.error err, printed := (str ""), ctx := ctx1 }
  | (Except.ok asset, ctx1) =>
    let refAvailibility := asset.Availibility
    let ctx2 := (ReadAsset ctx1 (str "asset2")).2
    let praAvailibility := asset.Availibility
    if praAvailibility.val < refAvailibility.val then
      { result := Except.ok (str ""), printed := (str "TransferRefund"), ctx := ctx2 }
    else
      { result := Except.ok (str ""), printed := (str ""), ctx := ctx2 }

/-- `TransferRefund` updates the wallet field of the asset with given id in world
state; the value it returns is `oldWallet`. -/
def TransferRefund (ctx : Stub) (id : GoString) (newWallet : GoInt) :
    Except GoError GoInt × Stub :=
  match ReadAsset ctx id with
  | (Except.error err, ctx1) => (Except.error err, ctx1)
  | (Except.ok asset, ctx1) =>
    let oldWallet := asset.Wallet
    let asset1 : Asset := { asset with Wallet := newWallet }
    match ctx1.PutState id (Marshal asset1) with
    | Except.error err => (Except.error (GoError.stub err), ctx1)
    | Except.ok ctx2 => (Except.ok oldWallet, ctx2)

/-! ## Vocabulary of the proofs -/

/-- Value of a digit string, as `parseDigits` accumulates it. -/
def digitsValue (l : List Byte) : Nat :=
  l.foldl (fun acc d => acc * 10 + (d.val - 48)) 0

/-- A byte that may follow a number inside an object: the comma or the closing
brace. -/
def isDelim (c : Byte) : Prop := c.val = 44 ∨ c.val = 125

/-- A byte that starts a number and nothing else: a digit or the minus sign. -/
def startsNumber (x : Byte) : Prop :=
  isSpace x = false ∧ x.val ≠ 123 ∧ x.val ≠ 91 ∧ x.val ≠ 34 ∧ x.val ≠ 116 ∧ x.val ≠ 102 ∧
    x.val ≠ 110

/-- The string with every byte that is not part of a valid encoding replaced by
U+FFFD, one item per unit of fuel. -/
def replaceInvalidLoop : Nat → List Byte → List Byte
  | 0, _ => []
  | _ + 1, [] => []
  | fuel + 1, b :: rest =>
    match decodeRune (b :: rest) with
    | (c, size) => encodeRune c ++ replaceInvalidLoop fuel ((b :: rest).drop size)

/-- The string with every byte that is not part of a valid encoding replaced by
U+FFFD: what is read back from the literal that `json.Marshal` writes for the
string. -/
def replaceInvalid (s : GoString) : GoString := replaceInvalidLoop s.length s

/-- The members of a marshalled asset, as the parser returns them. -/
def marshalledMembers (a : Asset) : List (List Byte × Json) :=
  [((str "Availibility"), Json.number (formatInt a.Availibility.val)),
   ((str "ID"), Json.string (replaceInvalid a.ID)),
   ((str "Wallet"), Json.number (formatInt a.Wallet.val)),
   ((str "Latency"), Json.number (formatInt a.Latency.val))]

/-- What `appendString` writes for one rune: the escape of an ASCII byte, the
escape of U+2028 or U+2029, or the UTF-8 bytes of the rune. -/
def escapeRune (r : Nat) : List Byte :=
  if r < 0x80 then escapeByte (byte r)
  else if r = 0x2028 then [byte 92, byte 117, byte 50, byte 48, byte 50, byte 56]
  else if r = 0x2029 then [byte 92, byte 117, byte 50, byte 48, byte 50, byte 57]
  else encodeRune r

/-- A key that is read back as it is written: it needs no escape. -/
def PlainKey (key : List Byte) : Prop :=
  ∀ rest, parseString (key ++ byte 34 :: rest) = some (key, rest)

/-- A JSON value that, when it is a string, is valid UTF-8. -/
def StrValid : Json → Prop
  | Json.string s => ValidUTF8 s
  | _ => True

/-- A JSON value whose string, or whose members that are strings, are valid
UTF-8. -/
def TopValid : Json → Prop
  | Json.string s => ValidUTF8 s
  | Json.object ms => ∀ m ∈ ms, StrValid m.2
  | _ => True

/-- A ledger with no values in which every call succeeds. -/
def emptyLedger : Stub :=
  { state := fun _ => none, getErr := fun _ => none, putErr := fun _ _ => none,
    delErr := fun _ => none }

/-- A ledger that holds the seed record at `asset1`; every call succeeds. -/
def seededLedger : Stub :=
  { emptyLedger with
    state := fun k =>
      if k = (str "asset1") then
        some (str "\x7b\"Availibility\":99,\"ID\":\"asset1\",\"Wallet\":100,\"Latency\":99\x7d")
      else none }

/-- A ledger whose value at `asset1` is not a JSON text; every call succeeds. -/
def corruptLedger : Stub :=
  { emptyLedger with state := fun k => if k = (str "asset1") then some (str "garbage") else none }

/-- A ledger that holds the seed record at `asset1` and can be read, but on
which every write and every delete fails. -/
def refusingLedger : Stub :=
  { seededLedger with
    putErr := fun _ _ => some (str "ledger unavailable"),
    delErr := fun _ => some (str "ledger unavailable") }

/-- A ledger that holds the seed record at `asset1` and cannot be read. -/
def unreadableLedger : Stub :=
  { seededLedger with getErr := fun _ => some (str "ledger unavailable") }

/-- A ledger that holds the seed record at `asset1` and, at `asset2`, a record
with a lower availability; every call succeeds. -/
def twoAssetLedger : Stub :=
  { emptyLedger with
    state := fun k =>
      if k = (str "asset1") then seededLedger.state (str "asset1")
      else if k = (str "asset2") then
        some (str "\x7b\"Availibility\":10,\"ID\":\"asset2\",\"Wallet\":5,\"Latency\":7\x7d")
      else none }

/-- A ledger that holds the seed record at `asset1` and a value that is not a
JSON text at `asset2`; every call succeeds. -/
def halfCorruptLedger : Stub :=
  { emptyLedger with
    state := fun k =>
      if k = (str "asset1") then seededLedger.state (str "asset1")
      else if k = (str "asset2") then some (str "garbage")
      else none }

/-- A ledger whose value at `asset1` is not a JSON text and on which every
write and every delete fails. -/
def corruptRefusingLedger : Stub :=
  { corruptLedger with
    putErr := fun _ _ => some (str "ledger unavailable"),
    delErr := fun _ => some (str "ledger unavailable") }

/-- A key that is not valid UTF-8: the single byte `0xFF`. -/
def badKey : GoString := [byte 0xFF]

/-- U+FFFD, the replacement character, in UTF-8. -/
def replacementChar : GoString := [byte 0xEF, byte 0xBF, byte 0xBD]

/-- A ledger that holds the seed record at the key `badKey`; every call
succeeds. -/
def badKeyLedger : Stub :=
  { emptyLedger with state := fun k => if k = badKey then seededLedger.state (str "asset1") else none }

/-- A ledger whose value at the key `badKey` is not a JSON text; every call
succeeds. -/
def corruptBadKeyLedger : Stub :=
  { emptyLedger with state := fun k => if k = badKey then some (str "garbage") else none }

/-- The member names of a serialized record, in the order in which they are
written; `none` when the data is not a JSON object. -/
def fieldNames (data : Bytes) : Option (List GoString) :=
  match parseValue (data.length + 1) 0 data with
  | some (Json.object members, _) => some (members.map (fun m => m.1))
  | _ => none

/-- Lexicographic order of two texts, byte by byte; a proper prefix
comes first. -/
def lexLess : List Byte → List Byte → Bool
  | [], [] => false
  | [], _ :: _ => true
  | _ :: _, [] => false
  | a :: as, b :: bs =>
    if a.val < b.val then true
    else if b.val < a.val then false
    else lexLess as bs

/-- Alphabetic order: every name is lexicographically greater than the one
before it. -/
def isAlphabetic : List GoString → Bool
  | a :: b :: rest => lexLess a b && isAlphabetic (b :: rest)
  | _ => true

/-- A call of one of the operations that the contract exposes, with its
arguments. -/
inductive Call where
  | InitContract
  | AddPracticalAsset (id : GoString) (availibility wallet latency : GoInt)
  | UpdateAsset (id : GoString) (availibility wallet latency : GoInt)
  | DeleteAsset (id : GoString)
  | TransferRefund (id : GoString) (newWallet : GoInt)
  | ComputeParameters

/-- A call that brings no key into the ledger that is not valid UTF-8: the
condition bears on `AddPracticalAsset` only, the one operation that writes at a
key given by the caller which held no value. -/
def validCall : Call → Prop
  | Call.AddPracticalAsset id _ _ _ => ValidUTF8 id
  | _ => True

/-- The ledger that a call leaves. -/
def runCall : Call → Stub → Stub
  | Call.InitContract, ctx => (InitContract ctx).2
  | Call.AddPracticalAsset id a w l, ctx => (AddPracticalAsset ctx id a w l).2
  | Call.UpdateAsset id a w l, ctx => (UpdateAsset ctx id a w l).2
  | Call.DeleteAsset id, ctx => (DeleteAsset ctx id).2
  | Call.TransferRefund id newWallet, ctx => (TransferRefund ctx id newWallet).2
  | Call.ComputeParameters, ctx => (ComputeParameters ctx).ctx

/-- The ledger that a sequence of calls leaves, first call first. -/
def runCalls : List Call → Stub → Stub
  | [], ctx => ctx
  | c :: cs, ctx => runCalls cs (runCall c ctx)

/-- Every present key holds a value that decodes to an asset whose `ID` is the
key. -/
def KeysMatchIDs (ctx : Stub) : Prop :=
  ∀ (k : GoString) (v : Bytes), ctx.state k = some v →
    ∃ r, Unmarshal v = Except.ok r ∧ r.ID = k


/-! ## Bytes and UTF-8 -/

theorem byte_val (n : Nat) : (byte n).val = n % 256 := rfl

theorem byte_of_val (b : Byte) : byte b.val = b := by
  apply Fin.ext
  simp only [byte_val]
  omega

theorem encodeRune_ascii (r : Nat) (h : r < 0x80) : encodeRune r = [byte r] := by
  simp only [encodeRune, h, if_true]

theorem encodeRune_length_pos (r : Nat) : 1 ≤ (encodeRune r).length := by
  unfold encodeRune
  repeat' split
  all_goals simp

theorem leadInfo_two (p0 : Nat) (h1 : 0xC2 ≤ p0) (h2 : p0 ≤ 0xDF) :
    leadInfo p0 = some (2, 0x80, 0xBF) := by
  unfold leadInfo
  rw [if_pos ⟨h1, h2⟩]

theorem leadInfo_three (p0 : Nat) (h1 : 0xE0 ≤ p0) (h2 : p0 ≤ 0xEF) :
    leadInfo p0 = some (3, if p0 = 0xE0 then 0xA0 else 0x80, if p0 = 0xED then 0x9F else 0xBF) := by
  unfold leadInfo
  have h0 : ¬ (0xC2 ≤ p0 ∧ p0 ≤ 0xDF) := by omega
  rw [if_neg h0]
  by_cases ha : p0 = 0xE0
  · subst ha; simp
  · by_cases hb : p0 = 0xED
    · subst hb; simp
    · have hc : 0xE1 ≤ p0 ∧ p0 ≤ 0xEF := by omega
      simp only [ha, hb, hc, if_false, and_self, if_true]

theorem leadInfo_four (p0 : Nat) (h1 : 0xF0 ≤ p0) (h2 : p0 ≤ 0xF4) :
    leadInfo p0 = some (4, if p0 = 0xF0 then 0x90 else 0x80, if p0 = 0xF4 then 0x8F else 0xBF) := by
  unfold leadInfo
  have h0 : ¬ (0xC2 ≤ p0 ∧ p0 ≤ 0xDF) := by omega
  have h3 : ¬ (0xE1 ≤ p0 ∧ p0 ≤ 0xEF) := by omega
  have h4 : p0 ≠ 0xE0 := by omega
  have h5 : p0 ≠ 0xED := by omega
  rw [if_neg h0, if_neg h4, if_neg h5, if_neg h3]
  by_cases ha : p0 = 0xF0
  · subst ha; simp
  · by_cases hb : p0 = 0xF4
    · subst hb; simp
    · have hc : 0xF1 ≤ p0 ∧ p0 ≤ 0xF3 := by omega
      simp only [ha, hb, hc, if_false, and_self, if_true]

/-- Decoding the encoding of a scalar value above ASCII gives the value and the
length of its encoding, whatever follows. -/
theorem decodeRune_encodeRune (r : Nat) (tail : List Byte) (hs : isScalar r) (h80 : 0x80 ≤ r) :
    decodeRune (encodeRune r ++ tail) = (r, (encodeRune r).length) := by
  unfold isScalar at hs
  have hc : r % 64 < 64 := Nat.mod_lt _ (by decide)
  by_cases h2 : r < 0x800
  · have he : encodeRune r = [byte (0xC0 + r / 64), byte (0x80 + r % 64)] := by
      unfold encodeRune
      rw [if_neg (by omega), if_pos h2]
    have hq : r / 64 < 32 := by omega
    have e1 : (0xC0 + r / 64) % 256 = 0xC0 + r / 64 := Nat.mod_eq_of_lt (by omega)
    have e2 : (0x80 + r % 64) % 256 = 0x80 + r % 64 := Nat.mod_eq_of_lt (by omega)
    have hl := leadInfo_two (0xC0 + r / 64) (by omega) (by omega)
    rw [he]
    simp only [List.cons_append, List.nil_append, decodeRune, byte_val, e1, e2, hl,
      List.length_cons, List.length_nil]
    rw [if_neg (by omega), if_neg (by omega), if_pos (le_refl 2)]
    have f1 : (0xC0 + r / 64) % 32 = r / 64 := by omega
    have f2 : (0x80 + r % 64) % 64 = r % 64 := by omega
    rw [f1, f2]
    simp only [Prod.mk.injEq, and_true]
    omega
  · by_cases h3 : r < 0x10000
    · have he : encodeRune r
          = [byte (0xE0 + r / 4096), byte (0x80 + r / 64 % 64), byte (0x80 + r % 64)] := by
        unfold encodeRune
        rw [if_neg (by omega), if_neg h2, if_neg (by omega), if_pos h3]
      have hb : r / 64 % 64 < 64 := Nat.mod_lt _ (by decide)
      have ha : r / 4096 < 16 := by omega
      have ha0 : 0 < r / 4096 ∨ 32 ≤ r / 64 % 64 := by omega
      have e1 : (0xE0 + r / 4096) % 256 = 0xE0 + r / 4096 := Nat.mod_eq_of_lt (by omega)
      have e2 : (0x80 + r / 64 % 64) % 256 = 0x80 + r / 64 % 64 := Nat.mod_eq_of_lt (by omega)
      have e3 : (0x80 + r % 64) % 256 = 0x80 + r % 64 := Nat.mod_eq_of_lt (by omega)
      have hl := leadInfo_three (0xE0 + r / 4096) (by omega) (by omega)
      rw [he]
      simp only [List.cons_append, List.nil_append, decodeRune, byte_val, e1, e2, e3, hl,
        List.length_cons, List.length_nil]
      rw [if_neg (by omega), if_neg (by split_ifs <;> omega), if_neg (by decide),
        if_neg (by omega), if_pos (le_refl 3)]
      have f1 : (0xE0 + r / 4096) % 16 = r / 4096 := by omega
      have f2 : (0x80 + r / 64 % 64) % 64 = r / 64 % 64 := by omega
      have f3 : (0x80 + r % 64) % 64 = r % 64 := by omega
      rw [f1, f2, f3]
      simp only [Prod.mk.injEq, and_true]
      omega
    · have he : encodeRune r
          = [byte (0xF0 + r / 262144), byte (0x80 + r / 4096 % 64), byte (0x80 + r / 64 % 64),
              byte (0x80 + r % 64)] := by
        unfold encodeRune
        rw [if_neg (by omega), if_neg h2, if_neg (by omega), if_neg h3]
      have hb : r / 64 % 64 < 64 := Nat.mod_lt _ (by decide)
      have hd : r / 4096 % 64 < 64 := Nat.mod_lt _ (by decide)
      have ha : r / 262144 < 5 := by omega
      have e1 : (0xF0 + r / 262144) % 256 = 0xF0 + r / 262144 := Nat.mod_eq_of_lt (by omega)
      have e2 : (0x80 + r / 4096 % 64) % 256 = 0x80 + r / 4096 % 64 :=
        Nat.mod_eq_of_lt (by omega)
      have e3 : (0x80 + r / 64 % 64) % 256 = 0x80 + r / 64 % 64 := Nat.mod_eq_of_lt (by omega)
      have e4 : (0x80 + r % 64) % 256 = 0x80 + r % 64 := Nat.mod_eq_of_lt (by omega)
      have hl := leadInfo_four (0xF0 + r / 262144) (by omega) (by omega)
      rw [he]
      simp only [List.cons_append, List.nil_append, decodeRune, byte_val, e1, e2, e3, e4, hl,
        List.length_cons, List.length_nil]
      rw [if_neg (by omega), if_neg (by split_ifs <;> omega), if_neg (by decide),
        if_neg (by omega), if_neg (by decide), if_neg (by omega)]
      have f1 : (0xF0 + r / 262144) % 8 = r / 262144 := by omega
      have f2 : (0x80 + r / 4096 % 64) % 64 = r / 4096 % 64 := by omega
      have f3 : (0x80 + r / 64 % 64) % 64 = r / 64 % 64 := by omega
      have f4 : (0x80 + r % 64) % 64 = r % 64 := by omega
      rw [f1, f2, f3, f4]
      simp only [Prod.mk.injEq, and_true]
      omega

theorem leadInfo_none (p0 : Nat) (h2 : ¬ (0xC2 ≤ p0 ∧ p0 ≤ 0xDF)) (h3 : ¬ (0xE0 ≤ p0 ∧ p0 ≤ 0xEF))
    (h4 : ¬ (0xF0 ≤ p0 ∧ p0 ≤ 0xF4)) : leadInfo p0 = none := by
  unfold leadInfo
  rw [if_neg h2, if_neg (by omega), if_neg (by omega), if_neg (by omega), if_neg (by omega),
    if_neg (by omega), if_neg (by omega)]

/-- The rune that `decodeRune` returns is always a scalar value. -/
theorem decodeRune_scalar (p : List Byte) : isScalar (decodeRune p).1 := by
  unfold isScalar
  cases p with
  | nil => right; decide
  | cons p0 rest =>
    by_cases h0 : p0.val < 0x80
    · simp only [decodeRune, h0, if_true]; omega
    · by_cases h2 : 0xC2 ≤ p0.val ∧ p0.val ≤ 0xDF
      · rw [decodeRune, if_neg h0, leadInfo_two _ h2.1 h2.2]
        cases rest with
        | nil => simp only; omega
        | cons b1 rest1 =>
          simp only
          by_cases hb1 : b1.val < 0x80 ∨ 0xBF < b1.val
          · rw [if_pos hb1]; simp only; omega
          · rw [if_neg hb1, if_pos (le_refl 2)]
            simp only
            have g1 : p0.val % 32 = p0.val - 0xC0 := by omega
            have g2 : b1.val % 64 = b1.val - 0x80 := by omega
            rw [g1, g2]
            omega
      · by_cases h3 : 0xE0 ≤ p0.val ∧ p0.val ≤ 0xEF
        · rw [decodeRune, if_neg h0, leadInfo_three _ h3.1 h3.2]
          cases rest with
          | nil => simp only; omega
          | cons b1 rest1 =>
            cases rest1 with
            | nil =>
              simp only
              split_ifs <;> (simp only; omega)
            | cons b2 rest2 =>
              simp only
              by_cases hb1 : b1.val < (if p0.val = 0xE0 then 0xA0 else 0x80) ∨
                  (if p0.val = 0xED then 0x9F else 0xBF) < b1.val
              · rw [if_pos hb1]; simp only; omega
              · rw [if_neg hb1, if_neg (by decide)]
                by_cases hb2 : b2.val < 0x80 ∨ 0xBF < b2.val
                · rw [if_pos hb2]; simp only; omega
                · rw [if_neg hb2, if_pos (le_refl 3)]
                  simp only
                  have g1 : p0.val % 16 = p0.val - 0xE0 := by omega
                  have g2 : b1.val % 64 = b1.val - 0x80 := by
                    split_ifs at hb1 <;> omega
                  have g3 : b2.val % 64 < 64 := Nat.mod_lt _ (by decide)
                  rw [g1, g2]
                  split_ifs at hb1 <;> omega
        · by_cases h4 : 0xF0 ≤ p0.val ∧ p0.val ≤ 0xF4
          · rw [decodeRune, if_neg h0, leadInfo_four _ h4.1 h4.2]
            cases rest with
            | nil => simp only; omega
            | cons b1 rest1 =>
              cases rest1 with
              | nil =>
                simp only
                split_ifs <;> (simp only; omega)
              | cons b2 rest2 =>
                cases rest2 with
                | nil =>
                  simp only
                  split_ifs <;> (simp only; omega)
                | cons b3 rest3 =>
                  simp only
                  by_cases hb1 : b1.val < (if p0.val = 0xF0 then 0x90 else 0x80) ∨
                      (if p0.val = 0xF4 then 0x8F else 0xBF) < b1.val
                  · rw [if_pos hb1]; simp only; omega
                  · rw [if_neg hb1, if_neg (by decide)]
                    by_cases hb2 : b2.val < 0x80 ∨ 0xBF < b2.val
                    · rw [if_pos hb2]; simp only; omega
                    · rw [if_neg hb2, if_neg (by decide)]
                      by_cases hb3 : b3.val < 0x80 ∨ 0xBF < b3.val
                      · rw [if_pos hb3]; simp only; omega
                      · rw [if_neg hb3]
                        simp only
                        have g1 : p0.val % 8 = p0.val - 0xF0 := by omega
                        have g2 : b1.val % 64 = b1.val - 0x80 := by
                          split_ifs at hb1 <;> omega
                        have g3 : b2.val % 64 < 64 := Nat.mod_lt _ (by decide)
                        have g4 : b3.val % 64 < 64 := Nat.mod_lt _ (by decide)
                        rw [g1, g2]
                        split_ifs at hb1 <;> omega
          · rw [decodeRune, if_neg h0, leadInfo_none _ h2 h3 h4]
            simp only; omega

/-- Decoding the encoding of a scalar value gives the value and the length of
its encoding, whatever follows. -/
theorem decodeRune_encodeRune_scalar (r : Nat) (tail : List Byte) (hs : isScalar r) :
    decodeRune (encodeRune r ++ tail) = (r, (encodeRune r).length) := by
  by_cases h80 : r < 0x80
  · have hv : (byte r).val = r := by simp only [byte_val]; omega
    rw [encodeRune_ascii r h80]
    show decodeRune (byte r :: tail) = _
    simp only [decodeRune, hv, h80, if_true, List.length_cons, List.length_nil]
  · exact decodeRune_encodeRune r tail hs (by omega)

/-- The input of `decodeRune` starts with the encoding of a scalar value, or
else its first byte is rejected: the result is U+FFFD with a width of one
byte. -/
theorem decodeRune_canonical (p0 : Byte) (rest : List Byte) :
    (¬ p0.val < 0x80 ∧ decodeRune (p0 :: rest) = (0xFFFD, 1)) ∨
    ∃ c t, isScalar c ∧ p0 :: rest = encodeRune c ++ t := by
  have hp := p0.isLt
  by_cases h0 : p0.val < 0x80
  · right
    refine ⟨p0.val, rest, by unfold isScalar; omega, ?_⟩
    rw [encodeRune_ascii _ h0, byte_of_val]
    rfl
  by_cases h2 : 0xC2 ≤ p0.val ∧ p0.val ≤ 0xDF
  · cases rest with
    | nil =>
      left
      refine ⟨h0, ?_⟩
      rw [decodeRune, if_neg h0, leadInfo_two _ h2.1 h2.2]
    | cons b1 rest1 =>
      by_cases hb1 : b1.val < 0x80 ∨ 0xBF < b1.val
      · left
        refine ⟨h0, ?_⟩
        rw [decodeRune, if_neg h0, leadInfo_two _ h2.1 h2.2]
        simp only
        rw [if_pos hb1]
      · right
        refine ⟨(p0.val - 0xC0) * 64 + (b1.val - 0x80), rest1, by unfold isScalar; omega, ?_⟩
        have he : encodeRune ((p0.val - 0xC0) * 64 + (b1.val - 0x80)) = [p0, b1] := by
          unfold encodeRune
          rw [if_neg (by omega), if_pos (by omega)]
          have e1 : 0xC0 + ((p0.val - 0xC0) * 64 + (b1.val - 0x80)) / 64 = p0.val := by omega
          have e2 : 0x80 + ((p0.val - 0xC0) * 64 + (b1.val - 0x80)) % 64 = b1.val := by omega
          rw [e1, e2, byte_of_val, byte_of_val]
        rw [he]
        rfl
  by_cases h3 : 0xE0 ≤ p0.val ∧ p0.val ≤ 0xEF
  · have hl := leadInfo_three _ h3.1 h3.2
    cases rest with
    | nil =>
      left
      refine ⟨h0, ?_⟩
      rw [decodeRune, if_neg h0, hl]
    | cons b1 rest1 =>
      by_cases hb1 : b1.val < (if p0.val = 0xE0 then 0xA0 else 0x80) ∨
          (if p0.val = 0xED then 0x9F else 0xBF) < b1.val
      · left
        refine ⟨h0, ?_⟩
        rw [decodeRune, if_neg h0, hl]
        simp only
        rw [if_pos hb1]
      · cases rest1 with
        | nil =>
          left
          refine ⟨h0, ?_⟩
          rw [decodeRune, if_neg h0, hl]
          simp only
          rw [if_neg hb1, if_neg (by decide)]
        | cons b2 rest2 =>
          by_cases hb2 : b2.val < 0x80 ∨ 0xBF < b2.val
          · left
            refine ⟨h0, ?_⟩
            rw [decodeRune, if_neg h0, hl]
            simp only
            rw [if_neg hb1, if_neg (by decide), if_pos hb2]
          · right
            have hb1' : (if p0.val = 0xE0 then 0xA0 else 0x80) ≤ b1.val ∧
                b1.val ≤ (if p0.val = 0xED then 0x9F else 0xBF) := by omega
            have hlo : 0x80 ≤ b1.val := by
              have := hb1'.1
              split_ifs at this <;> omega
            have hhi : b1.val ≤ 0xBF := by
              have := hb1'.2
              split_ifs at this <;> omega
            have hE0 : p0.val = 0xE0 → 0xA0 ≤ b1.val := by
              intro h
              have := hb1'.1
              rw [if_pos h] at this
              exact this
            have hED : p0.val = 0xED → b1.val ≤ 0x9F := by
              intro h
              have := hb1'.2
              rw [if_pos h] at this
              exact this
            refine ⟨(p0.val - 0xE0) * 4096 + (b1.val - 0x80) * 64 + (b2.val - 0x80), rest2,
              by unfold isScalar; omega, ?_⟩
            have he : encodeRune ((p0.val - 0xE0) * 4096 + (b1.val - 0x80) * 64 + (b2.val - 0x80))
                = [p0, b1, b2] := by
              unfold encodeRune
              rw [if_neg (by omega), if_neg (by omega), if_neg (by omega), if_pos (by omega)]
              have e1 : 0xE0 + ((p0.val - 0xE0) * 4096 + (b1.val - 0x80) * 64 + (b2.val - 0x80))
                  / 4096 = p0.val := by omega
              have e2 : 0x80 + ((p0.val - 0xE0) * 4096 + (b1.val - 0x80) * 64 + (b2.val - 0x80))
                  / 64 % 64 = b1.val := by omega
              have e3 : 0x80 + ((p0.val - 0xE0) * 4096 + (b1.val - 0x80) * 64 + (b2.val - 0x80))
                  % 64 = b2.val := by omega
              rw [e1, e2, e3, byte_of_val, byte_of_val, byte_of_val]
            rw [he]
            rfl
  by_cases h4 : 0xF0 ≤ p0.val ∧ p0.val ≤ 0xF4
  · have hl := leadInfo_four _ h4.1 h4.2
    cases rest with
    | nil =>
      left
      refine ⟨h0, ?_⟩
      rw [decodeRune, if_neg h0, hl]
    | cons b1 rest1 =>
      by_cases hb1 : b1.val < (if p0.val = 0xF0 then 0x90 else 0x80) ∨
          (if p0.val = 0xF4 then 0x8F else 0xBF) < b1.val
      · left
        refine ⟨h0, ?_⟩
        rw [decodeRune, if_neg h0, hl]
        simp only
        rw [if_pos hb1]
      · cases rest1 with
        | nil =>
          left
          refine ⟨h0, ?_⟩
          rw [decodeRune, if_neg h0, hl]
          simp only
          rw [if_neg hb1, if_neg (by decide)]
        | cons b2 rest2 =>
          by_cases hb2 : b2.val < 0x80 ∨ 0xBF < b2.val
          · left
            refine ⟨h0, ?_⟩
            rw [decodeRune, if_neg h0, hl]
            simp only
            rw [if_neg hb1, if_neg (by decide), if_pos hb2]
          · cases rest2 with
            | nil =>
              left
              refine ⟨h0, ?_⟩
              rw [decodeRune, if_neg h0, hl]
              simp only
              rw [if_neg hb1, if_neg (by decide), if_neg hb2, if_neg (by decide)]
            | cons b3 rest3 =>
              by_cases hb3 : b3.val < 0x80 ∨ 0xBF < b3.val
              · left
                refine ⟨h0, ?_⟩
                rw [decodeRune, if_neg h0, hl]
                simp only
                rw [if_neg hb1, if_neg (by decide), if_neg hb2, if_neg (by decide), if_pos hb3]
              · right
                have hb1' : (if p0.val = 0xF0 then 0x90 else 0x80) ≤ b1.val ∧
                    b1.val ≤ (if p0.val = 0xF4 then 0x8F else 0xBF) := by omega
                have hlo : 0x80 ≤ b1.val := by
                  have := hb1'.1
                  split_ifs at this <;> omega
                have hhi : b1.val ≤ 0xBF := by
                  have := hb1'.2
                  split_ifs at this <;> omega
                have hF0 : p0.val = 0xF0 → 0x90 ≤ b1.val := by
                  intro h
                  have := hb1'.1
                  rw [if_pos h] at this
                  exact this
                have hF4 : p0.val = 0xF4 → b1.val ≤ 0x8F := by
                  intro h
                  have := hb1'.2
                  rw [if_pos h] at this
                  exact this
                refine ⟨(p0.val - 0xF0) * 262144 + (b1.val - 0x80) * 4096 + (b2.val - 0x80) * 64
                  + (b3.val - 0x80), rest3, by unfold isScalar; omega, ?_⟩
                have he : encodeRune ((p0.val - 0xF0) * 262144 + (b1.val - 0x80) * 4096
                    + (b2.val - 0x80) * 64 + (b3.val - 0x80)) = [p0, b1, b2, b3] := by
                  unfold encodeRune
                  rw [if_neg (by omega), if_neg (by omega), if_neg (by omega), if_neg (by omega)]
                  have e1 : 0xF0 + ((p0.val - 0xF0) * 262144 + (b1.val - 0x80) * 4096
                      + (b2.val - 0x80) * 64 + (b3.val - 0x80)) / 262144 = p0.val := by omega
                  have e2 : 0x80 + ((p0.val - 0xF0) * 262144 + (b1.val - 0x80) * 4096
                      + (b2.val - 0x80) * 64 + (b3.val - 0x80)) / 4096 % 64 = b1.val := by omega
                  have e3 : 0x80 + ((p0.val - 0xF0) * 262144 + (b1.val - 0x80) * 4096
                      + (b2.val - 0x80) * 64 + (b3.val - 0x80)) / 64 % 64 = b2.val := by omega
                  have e4 : 0x80 + ((p0.val - 0xF0) * 262144 + (b1.val - 0x80) * 4096
                      + (b2.val - 0x80) * 64 + (b3.val - 0x80)) % 64 = b3.val := by omega
                  rw [e1, e2, e3, e4, byte_of_val, byte_of_val, byte_of_val, byte_of_val]
                rw [he]
                rfl
  left
  refine ⟨h0, ?_⟩
  rw [decodeRune, if_neg h0, leadInfo_none _ h2 h3 h4]

/-! ## Round trip of the codec: numbers -/

theorem digitChar_val (d : Nat) (h : d < 10) : (digitChar d).val = 48 + d := by
  simp only [digitChar, byte_val]
  omega

theorem digitChar_isDigit (d : Nat) (h : d < 10) : isDigit (digitChar d) = true := by
  simp only [isDigit, digitChar_val d h, Bool.and_eq_true, decide_eq_true_eq]
  omega

theorem digitChar_value (d : Nat) (h : d < 10) : (digitChar d).val - 48 = d := by
  rw [digitChar_val d h]
  omega

theorem isDigit_false_of_isDelim (c : Byte) (hc : isDelim c) : isDigit c = false := by
  unfold isDelim at hc
  simp only [isDigit, Bool.and_eq_false_imp, decide_eq_true_eq, decide_eq_false_iff_not]
  omega

theorem digitsValue_append_single (l : List Byte) (c : Byte) :
    digitsValue (l ++ [c]) = digitsValue l * 10 + (c.val - 48) := by
  simp [digitsValue, List.foldl_append]

/-- Shape of the output of `formatDigits`: a leading digit that is zero only
for the number zero, then digits, and the digits spell `u`. -/
theorem formatDigits_spec : ∀ (fuel u : Nat) (acc : List Byte), 0 < fuel → u < 10 ^ fuel →
    ∃ d ds, formatDigits fuel u acc = digitChar d :: (ds ++ acc) ∧ d < 10 ∧
      (d = 0 → u = 0 ∧ ds = []) ∧ (∀ x ∈ ds, isDigit x = true) ∧
      digitsValue (digitChar d :: ds) = u := by
  intro fuel
  induction fuel with
  | zero => intro u acc h; omega
  | succ n ih =>
    intro u acc _ hu
    by_cases h10 : u < 10
    · refine ⟨u, [], ?_, h10, ?_, ?_, ?_⟩
      · simp [formatDigits, h10]
      · intro h; exact ⟨h, rfl⟩
      · intro x hx; simp at hx
      · simp [digitsValue, digitChar_value u h10]
    · have hn : 0 < n := by
        rcases Nat.eq_zero_or_pos n with h | h
        · subst h; simp at hu; omega
        · exact h
      have hq : u / 10 < 10 ^ n := by
        rw [Nat.div_lt_iff_lt_mul (by decide)]
        rw [pow_succ] at hu; exact hu
      obtain ⟨d, ds, heq, hd, hz, hall, hval⟩ := ih (u / 10) (digitChar (u % 10) :: acc) hn hq
      have hmod : u % 10 < 10 := Nat.mod_lt _ (by decide)
      refine ⟨d, ds ++ [digitChar (u % 10)], ?_, hd, ?_, ?_, ?_⟩
      · simp [formatDigits, h10, heq]
      · intro h0
        have := (hz h0).1
        omega
      · intro x hx
        rcases List.mem_append.mp hx with h | h
        · exact hall x h
        · simp at h; subst h; exact digitChar_isDigit _ hmod
      · have : digitChar d :: (ds ++ [digitChar (u % 10)])
            = (digitChar d :: ds) ++ [digitChar (u % 10)] := by simp
        rw [this, digitsValue_append_single, hval, digitChar_value _ hmod]
        omega

theorem spanDigits_append (ds : List Byte) (c : Byte) (rest : List Byte)
    (hall : ∀ x ∈ ds, isDigit x = true) (hc : isDigit c = false) :
    spanDigits (ds ++ c :: rest) = (ds, c :: rest) := by
  induction ds with
  | nil => simp [spanDigits, hc]
  | cons x xs ih =>
    have hx : isDigit x = true := hall x (by simp)
    have := ih (fun y hy => hall y (by simp [hy]))
    simp [spanDigits, hx, this]

theorem parseDigits_digits (c : Byte) (cs : List Byte)
    (hall : ∀ x ∈ c :: cs, isDigit x = true) :
    parseDigits (c :: cs) = some (digitsValue (c :: cs)) := by
  have : (c :: cs).all isDigit = true := by
    rw [List.all_eq_true]; exact hall
  simp only [parseDigits, this, if_true, digitsValue]

theorem lexUnsigned_digits (d : Nat) (ds : List Byte) (c : Byte) (rest : List Byte)
    (hd : d < 10) (hz : d = 0 → ds = []) (hall : ∀ x ∈ ds, isDigit x = true)
    (hc : isDelim c) :
    lexUnsigned (digitChar d :: (ds ++ c :: rest)) = some (digitChar d :: ds, c :: rest) := by
  have hcd := isDigit_false_of_isDelim c hc
  have hspan := spanDigits_append ds c rest hall hcd
  unfold isDelim at hc
  have hfrac : lexFrac (c :: rest) = some ([], c :: rest) := by
    simp only [lexFrac]
    rw [if_neg (by omega)]
  have hexp : lexExp (c :: rest) = some ([], c :: rest) := by
    simp only [lexExp]
    rw [if_neg (by omega)]
  have hv := digitChar_val d hd
  by_cases h0 : d = 0
  · have hds := hz h0
    subst h0; subst hds
    simp only [lexUnsigned, lexInt, List.nil_append]
    rw [if_pos (by rw [hv])]
    simp only [hfrac, hexp, List.append_nil]
  · have hdig := digitChar_isDigit d hd
    simp only [lexUnsigned, lexInt]
    rw [if_neg (by rw [hv]; omega)]
    simp only [hdig, if_true, hspan, hfrac, hexp, List.append_nil]

theorem natAbs_lt_of_int64 (i : GoInt) : i.val.natAbs < 10 ^ 20 := by
  have h1 := i.property.1
  have h2 := i.property.2
  simp only [minInt, maxInt] at h1 h2
  omega

/-- Lexing the decimal text of an `int` gives back exactly that text. -/
theorem lexNumber_formatInt (i : GoInt) (c : Byte) (rest : List Byte) (hc : isDelim c) :
    lexNumber (formatInt i.val ++ c :: rest) = some (formatInt i.val, c :: rest) := by
  obtain ⟨d, ds, heq, hd, hz, hall, _⟩ :=
    formatDigits_spec 20 i.val.natAbs [] (by decide) (natAbs_lt_of_int64 i)
  simp only [List.append_nil] at heq
  have hlex := lexUnsigned_digits d ds c rest hd (fun h => (hz h).2) hall hc
  have hv := digitChar_val d hd
  by_cases hneg : i.val < 0
  · simp only [formatInt, hneg, if_true, heq, List.cons_append, lexNumber]
    rw [if_pos (by decide)]
    simp only [hlex]
  · simp only [formatInt, hneg, if_false, heq, List.cons_append, lexNumber]
    rw [if_neg (by rw [hv]; omega)]
    simp only [hlex]

/-- Parsing the decimal text of an `int` gives back the number. -/
theorem parseInt_formatInt (i : GoInt) : parseInt (formatInt i.val) = some i := by
  obtain ⟨d, ds, heq, hd, _, hall, hval⟩ :=
    formatDigits_spec 20 i.val.natAbs [] (by decide) (natAbs_lt_of_int64 i)
  simp only [List.append_nil] at heq
  have hall2 : ∀ x ∈ digitChar d :: ds, isDigit x = true := by
    intro x hx
    rcases List.mem_cons.mp hx with h | h
    · subst h; exact digitChar_isDigit d hd
    · exact hall x h
  have hp := parseDigits_digits (digitChar d) ds hall2
  rw [hval] at hp
  have hrange : checkRange i.val = some i := by
    simp [checkRange, i.property]
  have hv := digitChar_val d hd
  by_cases hneg : i.val < 0
  · have hi : -(Int.ofNat i.val.natAbs) = i.val := by
      simp only [Int.ofNat_eq_coe]; omega
    simp only [parseInt, formatInt, hneg, if_true, heq]
    rw [if_pos (by decide)]
    simp only [hp, hi, hrange]
  · have hi : Int.ofNat i.val.natAbs = i.val := by
      simp only [Int.ofNat_eq_coe]; omega
    simp only [parseInt, formatInt, hneg, if_false, heq]
    rw [if_neg (by rw [hv]; omega), if_neg (by rw [hv]; omega)]
    simp only [hp, hi, hrange]

/-! ## Round trip of the codec: strings -/

theorem getu4_hexChar : ∀ n, n < 64 →
    getu4 (byte 48) (byte 48) (hexChar (n / 16)) (hexChar (n % 16)) = some n := by
  decide

theorem prepend_some (pre s rest : List Byte) :
    prepend pre (some (s, rest)) = some (pre ++ s, rest) := rfl

theorem decodeEscape_simple (e : Byte) (d : Nat) (r : List Byte) (hne : e.val ≠ 117)
    (hu : unescape e = some d) : decodeEscape (e :: r) = some (d, r) := by
  simp only [decodeEscape, hne, if_false, hu]

theorem decodeEscape_u (h1 h2 h3 h4 : Byte) (r1 : List Byte) (rr : Nat)
    (hu : getu4 h1 h2 h3 h4 = some rr) (hns : ¬ (0xD800 ≤ rr ∧ rr < 0xE000)) :
    decodeEscape (byte 117 :: h1 :: h2 :: h3 :: h4 :: r1) = some (rr, r1) := by
  have h117 : (byte 117).val = 117 := by decide
  simp only [decodeEscape, h117, if_true, hu, hns, if_false]

theorem parseStringLoop_backslash (fuel : Nat) (rest : List Byte) (r : Nat)
    (rest1 : List Byte) (h : decodeEscape rest = some (r, rest1)) :
    parseStringLoop (fuel + 1) (byte 92 :: rest)
      = prepend (encodeRune r) (parseStringLoop fuel rest1) := by
  have h92 : (byte 92).val = 92 := by decide
  simp only [parseStringLoop, h92, h]
  rw [if_neg (by decide), if_pos trivial]

theorem parseStringLoop_plain (fuel : Nat) (c : Byte) (rest : List Byte)
    (h1 : c.val ≠ 34) (h2 : c.val ≠ 92) (h3 : ¬ c.val < 32) (h4 : c.val < 0x80) :
    parseStringLoop (fuel + 1) (c :: rest) = prepend [c] (parseStringLoop fuel rest) := by
  simp only [parseStringLoop, h1, h2, h3, h4, if_false, if_true]

/-- An escaped ASCII byte as `parseStringLoop` reads it. -/
theorem parseStringLoop_escapeByte (fuel : Nat) (b : Byte) (tail : List Byte)
    (hb : b.val < 0x80) :
    parseStringLoop (fuel + 1) (escapeByte b ++ tail) = prepend [b] (parseStringLoop fuel tail) := by
  have hbb := byte_of_val b
  have henc : encodeRune b.val = [b] := by rw [encodeRune_ascii _ hb, hbb]
  have simple : ∀ (e : Byte) (d : Nat), e.val ≠ 117 → unescape e = some d → d = b.val →
      parseStringLoop (fuel + 1) ([byte 92, e] ++ tail)
        = prepend [b] (parseStringLoop fuel tail) := by
    intro e d hne hu hd
    have := parseStringLoop_backslash fuel (e :: tail) d tail (decodeEscape_simple e d tail hne hu)
    rw [hd, henc] at this
    exact this
  unfold escapeByte
  by_cases h1 : b.val = 34 ∨ b.val = 92
  · rw [if_pos h1]
    apply simple b b.val (by omega) _ rfl
    unfold unescape
    rw [if_pos (by omega)]
  rw [if_neg h1]
  by_cases h3 : b.val = 8
  · rw [if_pos h3]
    exact simple (byte 98) 8 (by decide) (by decide) h3.symm
  rw [if_neg h3]
  by_cases h4 : b.val = 12
  · rw [if_pos h4]
    exact simple (byte 102) 12 (by decide) (by decide) h4.symm
  rw [if_neg h4]
  by_cases h5 : b.val = 10
  · rw [if_pos h5]
    exact simple (byte 110) 10 (by decide) (by decide) h5.symm
  rw [if_neg h5]
  by_cases h6 : b.val = 13
  · rw [if_pos h6]
    exact simple (byte 114) 13 (by decide) (by decide) h6.symm
  rw [if_neg h6]
  by_cases h7 : b.val = 9
  · rw [if_pos h7]
    exact simple (byte 116) 9 (by decide) (by decide) h7.symm
  rw [if_neg h7]
  by_cases h8 : b.val < 32 ∨ b.val = 60 ∨ b.val = 62 ∨ b.val = 38
  · rw [if_pos h8]
    have hu := getu4_hexChar b.val (by omega)
    have := parseStringLoop_backslash fuel _ b.val tail
      (decodeEscape_u (byte 48) (byte 48) _ _ tail b.val hu (by omega))
    rw [henc] at this
    exact this
  rw [if_neg h8]
  exact parseStringLoop_plain fuel b tail (by omega) (by omega) (by omega) hb

theorem encodeRune_head (r : Nat) (hs : isScalar r) (h80 : 0x80 ≤ r) :
    ∃ b e, encodeRune r = b :: e ∧ 0x80 ≤ b.val := by
  unfold isScalar at hs
  unfold encodeRune
  rw [if_neg (by omega)]
  by_cases h2 : r < 0x800
  · rw [if_pos h2]
    exact ⟨_, _, rfl, by simp only [byte_val]; omega⟩
  · rw [if_neg h2, if_neg (by omega)]
    by_cases h3 : r < 0x10000
    · rw [if_pos h3]
      exact ⟨_, _, rfl, by simp only [byte_val]; omega⟩
    · rw [if_neg h3]
      exact ⟨_, _, rfl, by simp only [byte_val]; omega⟩

theorem encodeRune_length_two (r : Nat) (h80 : 0x80 ≤ r) :
    2 ≤ (encodeRune r).length := by
  unfold encodeRune
  rw [if_neg (by omega)]
  split_ifs <;> simp

/-- What `appendString` writes for the encoding of one scalar value. -/
theorem appendString_encodeRune (fuel r : Nat) (s : List Byte) (hs : isScalar r) :
    appendString (fuel + 1) (encodeRune r ++ s) = escapeRune r ++ appendString fuel s := by
  by_cases h80 : r < 0x80
  · have hv : (byte r).val < 0x80 := by simp only [byte_val]; omega
    rw [encodeRune_ascii r h80]
    show appendString (fuel + 1) (byte r :: s) = _
    simp only [appendString, hv, if_true, escapeRune, h80]
  · have h80' : 0x80 ≤ r := by omega
    obtain ⟨b, e, he, hb⟩ := encodeRune_head r hs h80'
    have hdec := decodeRune_encodeRune r s hs h80'
    have hlen := encodeRune_length_two r h80'
    have htake : List.take (encodeRune r).length (encodeRune r ++ s) = encodeRune r :=
      List.take_left _ _
    have hdrop : List.drop (encodeRune r).length (encodeRune r ++ s) = s :=
      List.drop_left _ _
    rw [he] at hdec htake hdrop hlen ⊢
    simp only [List.cons_append] at hdec htake hdrop ⊢
    simp only [appendString, hdec, htake, hdrop, escapeRune, h80, if_false]
    rw [if_neg (by omega), if_neg (by omega), he]
    split_ifs <;> rfl

/-- What `parseStringLoop` reads back from the escape of one scalar value. -/
theorem parseStringLoop_escapeRune (fuel r : Nat) (tail : List Byte) (hs : isScalar r) :
    parseStringLoop (fuel + 1) (escapeRune r ++ tail)
      = prepend (encodeRune r) (parseStringLoop fuel tail) := by
  by_cases h80 : r < 0x80
  · have hv : (byte r).val < 0x80 := by simp only [byte_val]; omega
    simp only [escapeRune, h80, if_true]
    rw [parseStringLoop_escapeByte fuel (byte r) tail hv, encodeRune_ascii r h80]
  · have h80' : 0x80 ≤ r := by omega
    simp only [escapeRune, h80, if_false]
    by_cases h1 : r = 0x2028
    · subst h1
      rw [if_pos rfl]
      exact parseStringLoop_backslash fuel _ 0x2028 tail
        (decodeEscape_u (byte 50) (byte 48) (byte 50) (byte 56) tail 0x2028 (by decide)
          (by decide))
    · rw [if_neg h1]
      by_cases h2 : r = 0x2029
      · subst h2
        rw [if_pos rfl]
        exact parseStringLoop_backslash fuel _ 0x2029 tail
          (decodeEscape_u (byte 50) (byte 48) (byte 50) (byte 57) tail 0x2029 (by decide)
            (by decide))
      · rw [if_neg h2]
        obtain ⟨b, e, he, hb⟩ := encodeRune_head r hs h80'
        have hdec := decodeRune_encodeRune r tail hs h80'
        have hdrop : List.drop (encodeRune r).length (encodeRune r ++ tail) = tail :=
          List.drop_left _ _
        rw [he] at hdec hdrop ⊢
        simp only [List.cons_append] at hdec hdrop ⊢
        simp only [parseStringLoop, hdec, hdrop]
        rw [if_neg (by omega), if_neg (by omega), if_neg (by omega), if_neg (by omega), he]

theorem escapeRune_length (r : Nat) : (encodeRune r).length ≤ (escapeRune r).length := by
  unfold escapeRune
  by_cases h80 : r < 0x80
  · rw [if_pos h80, encodeRune_ascii r h80]
    unfold escapeByte
    split_ifs <;> simp
  · rw [if_neg h80]
    by_cases h1 : r = 0x2028
    · subst h1; decide
    · rw [if_neg h1]
      by_cases h2 : r = 0x2029
      · subst h2; decide
      · rw [if_neg h2]

theorem encodeRunes_length (rs : List Nat) : rs.length ≤ (encodeRunes rs).length := by
  induction rs with
  | nil => simp
  | cons r rs ih =>
    have := encodeRune_length_pos r
    simp only [encodeRunes, List.length_cons, List.length_append]
    omega

/-- What `replaceInvalidLoop` makes of the encoding of one scalar value. -/
theorem replaceInvalidLoop_encodeRune (fuel r : Nat) (s : List Byte) (hs : isScalar r) :
    replaceInvalidLoop (fuel + 1) (encodeRune r ++ s)
      = encodeRune r ++ replaceInvalidLoop fuel s := by
  have hdec := decodeRune_encodeRune_scalar r s hs
  have hdrop : List.drop (encodeRune r).length (encodeRune r ++ s) = s := List.drop_left _ _
  have hpos := encodeRune_length_pos r
  cases he : encodeRune r with
  | nil => rw [he] at hpos; simp at hpos
  | cons b e =>
    rw [he] at hdec hdrop
    simp only [List.cons_append] at hdec hdrop ⊢
    simp only [replaceInvalidLoop, hdec, hdrop]
    rw [he]
    rfl

/-- One step of `appendString`, of `replaceInvalidLoop` and of `parseStringLoop`
on a string that is not empty: `appendString` writes `e` for the first item of
the string, `parseStringLoop` reads `e` back as `pre`, and `pre` is what
`replaceInvalidLoop` makes of the item. -/
theorem string_step (n : Nat) (b : Byte) (t : List Byte) :
    ∃ (e pre t1 : List Byte),
      appendString (n + 1) (b :: t) = e ++ appendString n t1 ∧
      replaceInvalidLoop (n + 1) (b :: t) = pre ++ replaceInvalidLoop n t1 ∧
      t1.length ≤ t.length ∧ (b :: t).length ≤ e.length + t1.length ∧
      ∀ fuel tail,
        parseStringLoop (fuel + 1) (e ++ tail) = prepend pre (parseStringLoop fuel tail) := by
  rcases decodeRune_canonical b t with ⟨h0, hdec⟩ | ⟨c, t1, hs, heq⟩
  · refine ⟨[byte 92, byte 117, byte 102, byte 102, byte 102, byte 100], encodeRune 0xFFFD, t,
      ?_, ?_, le_refl _, by simp only [List.length_cons, List.length_nil]; omega, ?_⟩
    · simp only [appendString, h0, if_false, hdec, and_self, if_true]
    · simp only [replaceInvalidLoop, hdec, List.drop_succ_cons, List.drop_zero]
    · intro fuel tail
      exact parseStringLoop_backslash fuel _ 0xFFFD tail
        (decodeEscape_u (byte 102) (byte 102) (byte 102) (byte 100) tail 0xFFFD (by decide)
          (by decide))
  · have hlen := congrArg List.length heq
    simp only [List.length_cons, List.length_append] at hlen
    refine ⟨escapeRune c, encodeRune c, t1, ?_, ?_, ?_, ?_, ?_⟩
    · rw [heq]
      exact appendString_encodeRune n c t1 hs
    · rw [heq]
      exact replaceInvalidLoop_encodeRune n c t1 hs
    · have := encodeRune_length_pos c
      omega
    · have := escapeRune_length c
      simp only [List.length_cons]
      omega
    · intro fuel tail
      exact parseStringLoop_escapeRune fuel c tail hs

/-- What `parseStringLoop` reads back from the literal that `appendString` writes
for any string. -/
theorem parseStringLoop_appendString : ∀ (n : Nat) (s rest : List Byte) (m : Nat),
    s.length ≤ n → n + 1 ≤ m →
    parseStringLoop m (appendString n s ++ byte 34 :: rest)
      = some (replaceInvalidLoop n s, rest) := by
  intro n
  induction n with
  | zero =>
    intro s rest m _ hm
    obtain ⟨k, rfl⟩ : ∃ k, m = k + 1 := ⟨m - 1, by omega⟩
    simp only [appendString, replaceInvalidLoop, List.nil_append, parseStringLoop]
    rw [if_pos (by decide)]
  | succ n ih =>
    intro s rest m hs hm
    obtain ⟨k, rfl⟩ : ∃ k, m = k + 1 := ⟨m - 1, by omega⟩
    cases s with
    | nil =>
      simp only [appendString, replaceInvalidLoop, List.nil_append, parseStringLoop]
      rw [if_pos (by decide)]
    | cons b t =>
      obtain ⟨e, pre, t1, hA, hR, hlen, _, hP⟩ := string_step n b t
      simp only [List.length_cons] at hs
      rw [hA, hR, List.append_assoc, hP, ih t1 rest k (by omega) (by omega)]
      rfl

/-- The literal that `appendString` writes is at least as long as the string. -/
theorem appendString_length : ∀ (n : Nat) (s : List Byte), s.length ≤ n →
    s.length ≤ (appendString n s).length := by
  intro n
  induction n with
  | zero => intro s hs; omega
  | succ n ih =>
    intro s hs
    cases s with
    | nil => simp
    | cons b t =>
      obtain ⟨e, pre, t1, hA, _, hlen, hlen2, _⟩ := string_step n b t
      simp only [List.length_cons] at hs hlen2
      have := ih t1 (by omega)
      rw [hA, List.length_append, List.length_cons]
      omega

/-- Reading back the literal that `quote` writes for a string yields the string
with every byte that is not part of a valid encoding replaced by U+FFFD. -/
theorem parseString_quote (s : GoString) (rest : List Byte) :
    quote s ++ rest = byte 34 :: (appendString s.length s ++ byte 34 :: rest) ∧
    parseString (appendString s.length s ++ byte 34 :: rest)
      = some (replaceInvalid s, rest) := by
  refine ⟨by simp [quote], ?_⟩
  unfold parseString replaceInvalid
  apply parseStringLoop_appendString s.length s rest _ (le_refl _)
  have := appendString_length s.length s (le_refl _)
  simp only [List.length_append, List.length_cons]
  omega

theorem replaceInvalidLoop_encodeRunes (rs : List Nat) (hs : ∀ r ∈ rs, isScalar r) :
    ∀ fuel, rs.length ≤ fuel →
      replaceInvalidLoop fuel (encodeRunes rs) = encodeRunes rs := by
  induction rs with
  | nil =>
    intro fuel _
    cases fuel <;> rfl
  | cons r rs ih =>
    intro fuel h
    obtain ⟨n, rfl⟩ : ∃ n, fuel = n + 1 := ⟨fuel - 1, by simp at h; omega⟩
    simp only [encodeRunes]
    rw [replaceInvalidLoop_encodeRune n r _ (hs r (by simp)),
      ih (fun x hx => hs x (by simp [hx])) n (by simp at h; omega)]

/-- A string that is valid UTF-8 is left as it is. -/
theorem replaceInvalid_valid (s : GoString) (hv : ValidUTF8 s) : replaceInvalid s = s := by
  obtain ⟨rs, hs, rfl⟩ := hv
  exact replaceInvalidLoop_encodeRunes rs hs _ (encodeRunes_length rs)

/-! ## Round trip of the codec: the record -/

theorem startsNumber_digitChar (d : Nat) (h : d < 10) : startsNumber (digitChar d) := by
  have hv := digitChar_val d h
  unfold startsNumber isSpace
  rw [hv]
  refine ⟨?_, by omega, by omega, by omega, by omega, by omega, by omega⟩
  simp only [Bool.or_eq_false_iff, decide_eq_false_iff_not]
  omega

theorem formatInt_head (i : GoInt) :
    ∃ x xs, formatInt i.val = x :: xs ∧ startsNumber x := by
  obtain ⟨d, ds, heq, hd, _, _, _⟩ :=
    formatDigits_spec 20 i.val.natAbs [] (by decide) (natAbs_lt_of_int64 i)
  simp only [List.append_nil] at heq
  by_cases hneg : i.val < 0
  · refine ⟨byte 45, digitChar d :: ds, by simp [formatInt, hneg, heq], ?_⟩
    unfold startsNumber; decide
  · exact ⟨digitChar d, ds, by simp [formatInt, hneg, heq], startsNumber_digitChar d hd⟩

/-- A number written by `formatInt` is read back as a number value. -/
theorem parseValue_formatInt (fuel depth : Nat) (i : GoInt) (c : Byte) (rest : List Byte)
    (hc : isDelim c) :
    parseValue (fuel + 1) depth (formatInt i.val ++ c :: rest)
      = some (Json.number (formatInt i.val), c :: rest) := by
  have hlex := lexNumber_formatInt i c rest hc
  obtain ⟨x, xs, hx, hsp, h1, h2, h3, h4, h5, h6⟩ := formatInt_head i
  rw [hx] at hlex ⊢
  simp only [List.cons_append] at hlex ⊢
  simp only [parseValue, skipSpace, hsp, Bool.false_eq_true, if_false, h1, h2, h3, h4, h5, h6,
    hlex]

/-- A string written by `quote` is read back as a string value. -/
theorem parseValue_quote (fuel depth : Nat) (s : GoString) (rest : List Byte) :
    parseValue (fuel + 1) depth (quote s ++ rest)
      = some (Json.string (replaceInvalid s), rest) := by
  obtain ⟨hq, hs⟩ := parseString_quote s rest
  have hsp : isSpace (byte 34) = false := by decide
  have h34 : (byte 34).val = 34 := by decide
  rw [hq]
  simp only [parseValue, skipSpace, hsp, Bool.false_eq_true, if_false, h34, hs]
  rw [if_neg (by decide), if_neg (by decide), if_pos trivial]

theorem skipSpace_colon (rest : List Byte) : skipSpace (byte 58 :: rest) = byte 58 :: rest := by
  have hsp : isSpace (byte 58) = false := by decide
  simp only [skipSpace, hsp, Bool.false_eq_true, if_false]

theorem skipSpace_quote (rest : List Byte) : skipSpace (byte 34 :: rest) = byte 34 :: rest := by
  have hsp : isSpace (byte 34) = false := by decide
  simp only [skipSpace, hsp, Bool.false_eq_true, if_false]

theorem skipSpace_delim (c : Byte) (rest : List Byte) (hc : isDelim c) :
    skipSpace (c :: rest) = c :: rest := by
  have hsp : isSpace c = false := by
    unfold isDelim at hc
    unfold isSpace
    simp only [Bool.or_eq_false_iff, decide_eq_false_iff_not]
    omega
  simp only [skipSpace, hsp, Bool.false_eq_true, if_false]

/-- One member, followed by a comma: the key, the colon and a value that
`parseValue` reads. -/
theorem parseMembers_comma (fuel depth : Nat) (key value : List Byte) (v : Json)
    (rest : List Byte) (acc : List (List Byte × Json)) (hkey : PlainKey key)
    (hv : parseValue (fuel + 1) depth (value ++ byte 44 :: rest) = some (v, byte 44 :: rest)) :
    parseMembers (fuel + 2) depth
        (byte 34 :: (key ++ byte 34 :: byte 58 :: (value ++ byte 44 :: rest))) acc
      = parseMembers (fuel + 1) depth rest ((key, v) :: acc) := by
  have hs := hkey (byte 58 :: (value ++ byte 44 :: rest))
  have h34 : (byte 34).val = 34 := by decide
  have h58 : (byte 58).val = 58 := by decide
  have h44 : (byte 44).val = 44 := by decide
  rw [parseMembers]
  simp only [skipSpace_quote, h34, if_true, hs, skipSpace_colon, h58, hv,
    skipSpace_delim (byte 44) rest (Or.inl h44), h44]

/-- The last member, followed by the closing brace. -/
theorem parseMembers_close (fuel depth : Nat) (key value : List Byte) (v : Json)
    (rest : List Byte) (acc : List (List Byte × Json)) (hkey : PlainKey key)
    (hv : parseValue (fuel + 1) depth (value ++ byte 125 :: rest) = some (v, byte 125 :: rest)) :
    parseMembers (fuel + 2) depth
        (byte 34 :: (key ++ byte 34 :: byte 58 :: (value ++ byte 125 :: rest))) acc
      = some (Json.object (((key, v) :: acc).reverse), rest) := by
  have hs := hkey (byte 58 :: (value ++ byte 125 :: rest))
  have h34 : (byte 34).val = 34 := by decide
  have h58 : (byte 58).val = 58 := by decide
  have h125 : (byte 125).val = 125 := by decide
  rw [parseMembers]
  simp only [skipSpace_quote, h34, if_true, hs, skipSpace_colon, h58, hv,
    skipSpace_delim (byte 125) rest (Or.inr h125), h125]
  rw [if_neg (by decide)]

theorem ValidUTF8_str (t : String) : ValidUTF8 (str t) := by
  refine ⟨t.data.map Char.toNat, ?_, rfl⟩
  intro r hr
  obtain ⟨c, _, rfl⟩ := List.mem_map.mp hr
  have hvalid := c.valid
  unfold isScalar
  unfold Char.toNat
  rcases hvalid with h | ⟨h1, h2⟩
  · left; exact h
  · right; exact ⟨by omega, h2⟩

theorem PlainKey_of (t : String) (h : appendString (str t).length (str t) = str t) :
    PlainKey (str t) := by
  intro rest
  have := (parseString_quote (str t) rest).2
  rw [h, replaceInvalid_valid _ (ValidUTF8_str t)] at this
  exact this

theorem Marshal_shape (a : Asset) :
    Marshal a = byte 123 :: byte 34 :: (str "Availibility" ++ byte 34 :: byte 58 ::
      (formatInt a.Availibility.val ++ byte 44 :: byte 34 :: (str "ID" ++ byte 34 :: byte 58 ::
      (quote a.ID ++ byte 44 :: byte 34 :: (str "Wallet" ++ byte 34 :: byte 58 ::
      (formatInt a.Wallet.val ++ byte 44 :: byte 34 :: (str "Latency" ++ byte 34 :: byte 58 ::
      (formatInt a.Latency.val ++ byte 125 :: [])))))))) := by
  have h1 : str "\x7b\"Availibility\":"
      = byte 123 :: byte 34 :: (str "Availibility" ++ [byte 34, byte 58]) := by decide
  have h2 : str ",\"ID\":" = byte 44 :: byte 34 :: (str "ID" ++ [byte 34, byte 58]) := by
    decide
  have h3 : str ",\"Wallet\":" = byte 44 :: byte 34 :: (str "Wallet" ++ [byte 34, byte 58]) := by
    decide
  have h4 : str ",\"Latency\":"
      = byte 44 :: byte 34 :: (str "Latency" ++ [byte 34, byte 58]) := by decide
  simp only [Marshal, h1, h2, h3, h4, List.append_assoc, List.cons_append, List.nil_append]

/-- The opening brace of a non-empty object. -/
theorem parseValue_open (fuel : Nat) (rest : List Byte) :
    parseValue (fuel + 1) 0 (byte 123 :: byte 34 :: rest)
      = parseMembers fuel 1 (byte 34 :: rest) [] := by
  have hsp : isSpace (byte 123) = false := by decide
  have h123 : (byte 123).val = 123 := by decide
  have h34 : (byte 34).val = 34 := by decide
  have hd : ¬ maxNestingDepth ≤ 0 := by decide
  simp only [parseValue, skipSpace, hsp, Bool.false_eq_true, if_false, h123, if_true, hd,
    skipSpace_quote]
  show (if (byte 34).val = 125 then _ else _) = _
  rw [if_neg (by decide)]

theorem parseValue_Marshal (k : Nat) (a : Asset) :
    parseValue (k + 6) 0 (Marshal a) = some (Json.object (marshalledMembers a), []) := by
  rw [Marshal_shape]
  have hA : PlainKey (str "Availibility") := PlainKey_of _ (by decide)
  have hI : PlainKey (str "ID") := PlainKey_of _ (by decide)
  have hW : PlainKey (str "Wallet") := PlainKey_of _ (by decide)
  have hL : PlainKey (str "Latency") := PlainKey_of _ (by decide)
  have h44 : isDelim (byte 44) := Or.inl (by decide)
  have h125 : isDelim (byte 125) := Or.inr (by decide)
  refine (parseValue_open (k + 5) _).trans ?_
  refine (parseMembers_comma (k + 3) 1 _ _ _ _ _ hA
    (parseValue_formatInt (k + 3) 1 a.Availibility (byte 44) _ h44)).trans ?_
  refine (parseMembers_comma (k + 2) 1 _ _ _ _ _ hI
    (parseValue_quote (k + 2) 1 a.ID _)).trans ?_
  refine (parseMembers_comma (k + 1) 1 _ _ _ _ _ hW
    (parseValue_formatInt (k + 1) 1 a.Wallet (byte 44) _ h44)).trans ?_
  exact parseMembers_close k 1 _ _ _ _ _ hL
    (parseValue_formatInt k 1 a.Latency (byte 125) _ h125)

theorem decodeAsset_marshalledMembers (a : Asset) :
    decodeAsset (Json.object (marshalledMembers a))
      = Except.ok { a with ID := replaceInvalid a.ID } := by
  have hA : findField (str "Availibility") = some Field.Availibility := by decide
  have hI : findField (str "ID") = some Field.ID := by decide
  have hW : findField (str "Wallet") = some Field.Wallet := by decide
  have hL : findField (str "Latency") = some Field.Latency := by decide
  simp [decodeAsset, marshalledMembers, decodeMember, hA, hI, hW, hL, storeInt, storeString,
    parseInt_formatInt]

theorem Marshal_length (a : Asset) : 5 ≤ (Marshal a).length := by
  rw [Marshal_shape]
  simp only [List.length_cons, List.length_append]
  omega

/-- Decoding what `Marshal` wrote always succeeds: it gives back the asset with
every byte of its `ID` that is not part of a valid encoding replaced by
U+FFFD. -/
theorem Unmarshal_Marshal_any (a : Asset) :
    Unmarshal (Marshal a) = Except.ok { a with ID := replaceInvalid a.ID } := by
  obtain ⟨k, hk⟩ : ∃ k, (Marshal a).length + 1 = k + 6 :=
    ⟨(Marshal a).length - 5, by have := Marshal_length a; omega⟩
  unfold Unmarshal
  rw [hk, parseValue_Marshal k a]
  simp only [skipSpace, decodeAsset_marshalledMembers]

/-- Round trip of the record encoding: decoding what `Marshal` wrote gives back
the asset, when its `ID` is valid UTF-8. -/
theorem Unmarshal_Marshal (a : Asset) (hv : ValidUTF8 a.ID) :
    Unmarshal (Marshal a) = Except.ok a := by
  rw [Unmarshal_Marshal_any, replaceInvalid_valid _ hv]

/-! ## What the decoder returns is valid UTF-8 -/

theorem ValidUTF8_nil : ValidUTF8 [] := ⟨[], by simp, rfl⟩

theorem ValidUTF8_encodeRune_append (r : Nat) (s : List Byte) (hr : isScalar r)
    (hs : ValidUTF8 s) : ValidUTF8 (encodeRune r ++ s) := by
  obtain ⟨rs, hrs, rfl⟩ := hs
  refine ⟨r :: rs, ?_, rfl⟩
  intro x hx
  rcases List.mem_cons.mp hx with h | h
  · rw [h]; exact hr
  · exact hrs x h

theorem ValidUTF8_ascii_cons (c : Byte) (s : List Byte) (hc : c.val < 0x80) (hs : ValidUTF8 s) :
    ValidUTF8 ([c] ++ s) := by
  have h := ValidUTF8_encodeRune_append c.val s (by unfold isScalar; omega) hs
  rw [encodeRune_ascii _ hc, byte_of_val] at h
  exact h

theorem hexVal_lt (c : Byte) (v : Nat) (h : hexVal c = some v) : v < 16 := by
  unfold hexVal at h
  split_ifs at h <;> (injection h with h; omega)

theorem getu4_lt (h1 h2 h3 h4 : Byte) (rr : Nat) (h : getu4 h1 h2 h3 h4 = some rr) :
    rr < 0x10000 := by
  unfold getu4 at h
  cases ha : hexVal h1 with
  | none => simp [ha] at h
  | some a =>
    cases hb : hexVal h2 with
    | none => simp [ha, hb] at h
    | some b =>
      cases hc : hexVal h3 with
      | none => simp [ha, hb, hc] at h
      | some c =>
        cases hd : hexVal h4 with
        | none => simp [ha, hb, hc, hd] at h
        | some d =>
          simp only [ha, hb, hc, hd, Option.some.injEq] at h
          have := hexVal_lt _ _ ha
          have := hexVal_lt _ _ hb
          have := hexVal_lt _ _ hc
          have := hexVal_lt _ _ hd
          omega

theorem lowSurrogate_range (cs : List Byte) (lo : Nat) (h : lowSurrogate cs = some lo) :
    0xDC00 ≤ lo ∧ lo < 0xE000 := by
  unfold lowSurrogate at h
  split at h
  · split_ifs at h
    split at h
    · split_ifs at h with hr
      injection h with h
      omega
    · cases h
  · cases h

theorem unescape_scalar (e : Byte) (d : Nat) (h : unescape e = some d) : isScalar d := by
  unfold unescape at h
  unfold isScalar
  split_ifs at h <;> (injection h with h; omega)

/-- The rune of an escape is a scalar value. -/
theorem decodeEscape_scalar (cs : List Byte) (r : Nat) (rest : List Byte)
    (h : decodeEscape cs = some (r, rest)) : isScalar r := by
  cases cs with
  | nil => simp [decodeEscape] at h
  | cons e tl =>
    by_cases he : e.val = 117
    · simp only [decodeEscape, he, if_true] at h
      split at h
      · rename_i h1 h2 h3 h4 r1
        cases hg : getu4 h1 h2 h3 h4 with
        | none => simp [hg] at h
        | some rr =>
          have hlt := getu4_lt _ _ _ _ _ hg
          simp only [hg] at h
          by_cases hsur : 0xD800 ≤ rr ∧ rr < 0xE000
          · rw [if_pos hsur] at h
            cases hl : lowSurrogate r1 with
            | none =>
              simp only [hl, Option.some.injEq, Prod.mk.injEq] at h
              unfold isScalar; omega
            | some lo =>
              have hlo := lowSurrogate_range _ _ hl
              simp only [hl] at h
              by_cases hhi : rr < 0xDC00
              · rw [if_pos hhi] at h
                simp only [Option.some.injEq, Prod.mk.injEq] at h
                unfold isScalar; omega
              · rw [if_neg hhi] at h
                simp only [Option.some.injEq, Prod.mk.injEq] at h
                unfold isScalar; omega
          · rw [if_neg hsur] at h
            simp only [Option.some.injEq, Prod.mk.injEq] at h
            unfold isScalar; omega
      · cases h
    · simp only [decodeEscape, he, if_false] at h
      cases hu : unescape e with
      | none => simp [hu] at h
      | some d =>
        simp only [hu, Option.some.injEq, Prod.mk.injEq] at h
        rw [← h.1]
        exact unescape_scalar e d hu

theorem prepend_eq_some (pre : List Byte) (o : Option (List Byte × List Byte))
    (s rest : List Byte) (h : prepend pre o = some (s, rest)) :
    ∃ s1, o = some (s1, rest) ∧ s = pre ++ s1 := by
  cases o with
  | none => cases h
  | some p =>
    obtain ⟨s1, r1⟩ := p
    simp only [prepend, Option.some.injEq, Prod.mk.injEq] at h
    exact ⟨s1, by rw [h.2], h.1.symm⟩

/-- Every string that `parseStringLoop` returns is valid UTF-8. -/
theorem parseStringLoop_valid : ∀ (fuel : Nat) (cs s rest : List Byte),
    parseStringLoop fuel cs = some (s, rest) → ValidUTF8 s := by
  intro fuel
  induction fuel with
  | zero => intro cs s rest h; simp [parseStringLoop] at h
  | succ n ih =>
    intro cs s rest h
    cases cs with
    | nil => simp [parseStringLoop] at h
    | cons c tl =>
      simp only [parseStringLoop] at h
      by_cases h1 : c.val = 34
      · rw [if_pos h1] at h
        simp only [Option.some.injEq, Prod.mk.injEq] at h
        rw [← h.1]
        exact ValidUTF8_nil
      · rw [if_neg h1] at h
        by_cases h2 : c.val = 92
        · rw [if_pos h2] at h
          cases hd : decodeEscape tl with
          | none => simp [hd] at h
          | some p =>
            obtain ⟨r, rest1⟩ := p
            simp only [hd] at h
            obtain ⟨s1, hs1, rfl⟩ := prepend_eq_some _ _ _ _ h
            exact ValidUTF8_encodeRune_append r s1 (decodeEscape_scalar _ _ _ hd)
              (ih _ _ _ hs1)
        · rw [if_neg h2] at h
          by_cases h3 : c.val < 32
          · rw [if_pos h3] at h
            cases h
          · rw [if_neg h3] at h
            by_cases h4 : c.val < 0x80
            · rw [if_pos h4] at h
              obtain ⟨s1, hs1, rfl⟩ := prepend_eq_some _ _ _ _ h
              exact ValidUTF8_ascii_cons c s1 h4 (ih _ _ _ hs1)
            · rw [if_neg h4] at h
              obtain ⟨s1, hs1, rfl⟩ := prepend_eq_some _ _ _ _ h
              exact ValidUTF8_encodeRune_append _ s1 (decodeRune_scalar _) (ih _ _ _ hs1)

theorem parseString_valid (cs s rest : List Byte) (h : parseString cs = some (s, rest)) :
    ValidUTF8 s :=
  parseStringLoop_valid _ _ _ _ h

theorem parseElements_array : ∀ (fuel depth : Nat) (cs : List Byte) (acc : List Json)
    (j : Json) (rest : List Byte),
    parseElements fuel depth cs acc = some (j, rest) → ∃ es, j = Json.array es := by
  intro fuel
  induction fuel with
  | zero => intro depth cs acc j rest h; simp [parseElements] at h
  | succ n ih =>
    intro depth cs acc j rest h
    rw [parseElements] at h
    cases hv : parseValue n depth cs with
    | none => simp [hv] at h
    | some p =>
      obtain ⟨v, r1⟩ := p
      simp only [hv] at h
      cases hs : skipSpace r1 with
      | nil => simp [hs] at h
      | cons sep r2 =>
        simp only [hs] at h
        by_cases h44 : sep.val = 44
        · rw [if_pos h44] at h
          exact ih _ _ _ _ _ h
        · rw [if_neg h44] at h
          by_cases h93 : sep.val = 93
          · rw [if_pos h93] at h
            simp only [Option.some.injEq, Prod.mk.injEq] at h
            exact ⟨_, h.1.symm⟩
          · rw [if_neg h93] at h
            cases h

theorem StrValid_of_TopValid (j : Json) (h : TopValid j) : StrValid j := by
  cases j <;> first | exact h | trivial

/-- Every string that the parser returns, as a value or as the value of a
member of the object it returns, is valid UTF-8. -/
theorem parse_valid : ∀ fuel : Nat,
    (∀ (depth : Nat) (cs : List Byte) (j : Json) (rest : List Byte),
      parseValue fuel depth cs = some (j, rest) → TopValid j) ∧
    (∀ (depth : Nat) (cs : List Byte) (acc : List (List Byte × Json)) (j : Json)
      (rest : List Byte), (∀ m ∈ acc, StrValid m.2) →
      parseMembers fuel depth cs acc = some (j, rest) → TopValid j) := by
  intro fuel
  induction fuel with
  | zero =>
    constructor
    · intro depth cs j rest h; simp [parseValue] at h
    · intro depth cs acc j rest _ h; simp [parseMembers] at h
  | succ n ih =>
    obtain ⟨ihV, ihM⟩ := ih
    constructor
    · intro depth cs j rest h
      rw [parseValue] at h
      cases hs : skipSpace cs with
      | nil => simp [hs] at h
      | cons c r =>
        simp only [hs] at h
        by_cases h123 : c.val = 123
        · rw [if_pos h123] at h
          by_cases hd : maxNestingDepth ≤ depth
          · rw [if_pos hd] at h; cases h
          · rw [if_neg hd] at h
            cases hs1 : skipSpace r with
            | nil => simp [hs1] at h
            | cons c1 r1 =>
              simp only [hs1] at h
              by_cases h125 : c1.val = 125
              · rw [if_pos h125] at h
                simp only [Option.some.injEq, Prod.mk.injEq] at h
                rw [← h.1]
                intro m hm
                cases hm
              · rw [if_neg h125] at h
                exact ihM _ _ _ _ _ (by intro m hm; cases hm) h
        · rw [if_neg h123] at h
          by_cases h91 : c.val = 91
          · rw [if_pos h91] at h
            by_cases hd : maxNestingDepth ≤ depth
            · rw [if_pos hd] at h; cases h
            · rw [if_neg hd] at h
              cases hs1 : skipSpace r with
              | nil => simp [hs1] at h
              | cons c1 r1 =>
                simp only [hs1] at h
                by_cases h93 : c1.val = 93
                · rw [if_pos h93] at h
                  simp only [Option.some.injEq, Prod.mk.injEq] at h
                  rw [← h.1]
                  trivial
                · rw [if_neg h93] at h
                  obtain ⟨es, rfl⟩ := parseElements_array _ _ _ _ _ _ h
                  trivial
          · rw [if_neg h91] at h
            by_cases h34 : c.val = 34
            · rw [if_pos h34] at h
              cases hp : parseString r with
              | none => simp [hp] at h
              | some p =>
                obtain ⟨s, r1⟩ := p
                simp only [hp, Option.some.injEq, Prod.mk.injEq] at h
                rw [← h.1]
                exact parseString_valid _ _ _ hp
            · rw [if_neg h34] at h
              by_cases h116 : c.val = 116
              · rw [if_pos h116] at h
                split at h
                · split_ifs at h
                  simp only [Option.some.injEq, Prod.mk.injEq] at h
                  rw [← h.1]
                  trivial
                · cases h
              · rw [if_neg h116] at h
                by_cases h102 : c.val = 102
                · rw [if_pos h102] at h
                  split at h
                  · split_ifs at h
                    simp only [Option.some.injEq, Prod.mk.injEq] at h
                    rw [← h.1]
                    trivial
                  · cases h
                · rw [if_neg h102] at h
                  by_cases h110 : c.val = 110
                  · rw [if_pos h110] at h
                    split at h
                    · split_ifs at h
                      simp only [Option.some.injEq, Prod.mk.injEq] at h
                      rw [← h.1]
                      trivial
                    · cases h
                  · rw [if_neg h110] at h
                    cases hl : lexNumber (c :: r) with
                    | none => simp [hl] at h
                    | some p =>
                      obtain ⟨l, r1⟩ := p
                      simp only [hl, Option.some.injEq, Prod.mk.injEq] at h
                      rw [← h.1]
                      trivial
    · intro depth cs acc j rest hacc h
      rw [parseMembers] at h
      cases hs : skipSpace cs with
      | nil => simp [hs] at h
      | cons q r =>
        simp only [hs] at h
        by_cases h34 : q.val = 34
        · rw [if_pos h34] at h
          cases hp : parseString r with
          | none => simp [hp] at h
          | some p =>
            obtain ⟨key, r1⟩ := p
            simp only [hp] at h
            cases hs1 : skipSpace r1 with
            | nil => simp [hs1] at h
            | cons colon r2 =>
              simp only [hs1] at h
              by_cases h58 : colon.val = 58
              · rw [if_pos h58] at h
                cases hv : parseValue n depth r2 with
                | none => simp [hv] at h
                | some p =>
                  obtain ⟨v, r3⟩ := p
                  simp only [hv] at h
                  have hvalid : ∀ m ∈ (key, v) :: acc, StrValid m.2 := by
                    intro m hm
                    rcases List.mem_cons.mp hm with hm | hm
                    · rw [hm]
                      exact StrValid_of_TopValid v (ihV _ _ _ _ hv)
                    · exact hacc m hm
                  cases hs2 : skipSpace r3 with
                  | nil => simp [hs2] at h
                  | cons sep r4 =>
                    simp only [hs2] at h
                    by_cases h44 : sep.val = 44
                    · rw [if_pos h44] at h
                      exact ihM _ _ _ _ _ hvalid h
                    · rw [if_neg h44] at h
                      by_cases h125 : sep.val = 125
                      · rw [if_pos h125] at h
                        simp only [Option.some.injEq, Prod.mk.injEq] at h
                        rw [← h.1]
                        intro m hm
                        exact hvalid m (List.mem_reverse.mp hm)
                      · rw [if_neg h125] at h
                        cases h
              · rw [if_neg h58] at h
                cases h
        · rw [if_neg h34] at h
          cases h

theorem storeString_valid (v : Json) (old s : GoString) (hold : ValidUTF8 old)
    (hv : StrValid v) (h : storeString v old = some s) : ValidUTF8 s := by
  cases v with
  | null =>
    simp only [storeString, Option.some.injEq] at h
    rw [← h]
    exact hold
  | string t =>
    simp only [storeString, Option.some.injEq] at h
    rw [← h]
    exact hv
  | bool b => simp [storeString] at h
  | number l => simp [storeString] at h
  | array es => simp [storeString] at h
  | object ms => simp [storeString] at h

theorem decodeMember_valid (st : Asset × Bool) (m : List Byte × Json)
    (hst : ValidUTF8 st.1.ID) (hm : StrValid m.2) : ValidUTF8 (decodeMember st m).1.ID := by
  unfold decodeMember
  cases hf : findField m.1 with
  | none => exact hst
  | some f =>
    cases f with
    | Availibility =>
      show ValidUTF8 (match storeInt m.2 st.1.Availibility with
        | some n => ({ st.1 with Availibility := n }, st.2)
        | none => (st.1, true)).1.ID
      cases storeInt m.2 st.1.Availibility <;> exact hst
    | ID =>
      show ValidUTF8 (match storeString m.2 st.1.ID with
        | some s => ({ st.1 with ID := s }, st.2)
        | none => (st.1, true)).1.ID
      cases hs : storeString m.2 st.1.ID with
      | none => exact hst
      | some s => exact storeString_valid _ _ _ hst hm hs
    | Wallet =>
      show ValidUTF8 (match storeInt m.2 st.1.Wallet with
        | some n => ({ st.1 with Wallet := n }, st.2)
        | none => (st.1, true)).1.ID
      cases storeInt m.2 st.1.Wallet <;> exact hst
    | Latency =>
      show ValidUTF8 (match storeInt m.2 st.1.Latency with
        | some n => ({ st.1 with Latency := n }, st.2)
        | none => (st.1, true)).1.ID
      cases storeInt m.2 st.1.Latency <;> exact hst

theorem foldl_decodeMember_valid : ∀ (ms : List (List Byte × Json)) (st : Asset × Bool),
    ValidUTF8 st.1.ID → (∀ m ∈ ms, StrValid m.2) →
    ValidUTF8 (ms.foldl decodeMember st).1.ID := by
  intro ms
  induction ms with
  | nil => intro st hst _; exact hst
  | cons m tl ih =>
    intro st hst hms
    simp only [List.foldl_cons]
    exact ih _ (decodeMember_valid st m hst (hms m (List.mem_cons_self _ _)))
      (fun x hx => hms x (List.mem_cons_of_mem _ hx))

theorem decodeAsset_valid (j : Json) (r : Asset) (hj : TopValid j)
    (h : decodeAsset j = Except.ok r) : ValidUTF8 r.ID := by
  cases j with
  | null =>
    simp only [decodeAsset, Except.ok.injEq] at h
    rw [← h]
    exact ValidUTF8_nil
  | object ms =>
    have hfold := foldl_decodeMember_valid ms (zeroAsset, false) ValidUTF8_nil hj
    simp only [decodeAsset] at h
    cases hf : ms.foldl decodeMember (zeroAsset, false) with
    | mk a b =>
      rw [hf] at h hfold
      cases b with
      | false =>
        simp only [Except.ok.injEq] at h
        rw [← h]
        exact hfold
      | true => cases h
  | bool b => cases h
  | number l => cases h
  | string s => cases h
  | array es => cases h

/-- The `ID` of every asset that `Unmarshal` returns is valid UTF-8. -/
theorem Unmarshal_valid_ID (data : Bytes) (r : Asset) (h : Unmarshal data = Except.ok r) :
    ValidUTF8 r.ID := by
  unfold Unmarshal at h
  cases hp : parseValue (data.length + 1) 0 data with
  | none => simp [hp] at h
  | some p =>
    obtain ⟨j, rest⟩ := p
    simp only [hp] at h
    cases hs : skipSpace rest with
    | nil =>
      simp only [hs] at h
      exact decodeAsset_valid j r ((parse_valid _).1 _ _ _ _ hp) h
    | cons c tl => simp [hs] at h

/-- The round trip of the record encoding gives back the asset exactly when its
`ID` is valid UTF-8. -/
theorem Unmarshal_Marshal_iff (a : Asset) :
    Unmarshal (Marshal a) = Except.ok a ↔ ValidUTF8 a.ID :=
  ⟨fun h => Unmarshal_valid_ID (Marshal a) a h, Unmarshal_Marshal a⟩

/-! ## The ledger stub -/

theorem GetState_ok (ctx : Stub) (key : GoString) (ov : Option Bytes)
    (h : ctx.GetState key = Except.ok ov) : ctx.getErr key = none ∧ ctx.state key = ov := by
  unfold Stub.GetState at h
  split at h
  · cases h
  · rename_i hg
    exact ⟨hg, by injection h⟩

theorem GetState_after_put (ctx : Stub) (key : GoString) (value : Bytes)
    (hg : ctx.getErr key = none) :
    (ctx.store key value).GetState key = Except.ok (some value) := by
  simp [Stub.GetState, Stub.store, hg]

theorem GetState_after_del (ctx : Stub) (key : GoString) (hg : ctx.getErr key = none) :
    (ctx.remove key).GetState key = Except.ok none := by
  simp [Stub.GetState, Stub.remove, hg]

theorem PutState_ok (ctx : Stub) (key : GoString) (value : Bytes)
    (hput : ctx.putErr key value = none) :
    ctx.PutState key value = Except.ok (ctx.store key value) := by
  simp only [Stub.PutState, hput]

theorem DelState_ok (ctx : Stub) (key : GoString) (hdel : ctx.delErr key = none) :
    ctx.DelState key = Except.ok (ctx.remove key) := by
  simp only [Stub.DelState, hdel]

/-! ## Success paths of the operations -/

theorem AssetExists_ok (ctx : Stub) (id : GoString) (ov : Option Bytes)
    (h : ctx.GetState id = Except.ok ov) :
    AssetExists ctx id = (Except.ok ov.isSome, ctx) := by
  simp only [AssetExists, h]

theorem ReadAsset_ok (ctx : Stub) (id : GoString) (value : Bytes) (r : Asset)
    (h : ctx.GetState id = Except.ok (some value)) (hdec : Unmarshal value = Except.ok r) :
    ReadAsset ctx id = (Except.ok r, ctx) := by
  simp only [ReadAsset, h, hdec]

theorem ReadAsset_absent (ctx : Stub) (id : GoString) (h : ctx.GetState id = Except.ok none) :
    ReadAsset ctx id
      = (Except.error (GoError.errorf ((str "the asset ") ++ id ++ (str " does not exist"))), ctx) := by
  simp only [ReadAsset, h]

theorem ReadAsset_undecodable (ctx : Stub) (id : GoString) (value : Bytes) (e : GoError)
    (h : ctx.GetState id = Except.ok (some value)) (hdec : Unmarshal value = Except.error e) :
    ReadAsset ctx id = (Except.error e, ctx) := by
  simp only [ReadAsset, h, hdec]

theorem ReadAsset_after_put (ctx : Stub) (id : GoString) (a : Asset)
    (hg : ctx.getErr id = none) (hv : ValidUTF8 a.ID) :
    (ReadAsset (ctx.store id (Marshal a)) id).1 = Except.ok a := by
  rw [ReadAsset_ok _ id (Marshal a) a (GetState_after_put ctx id _ hg) (Unmarshal_Marshal a hv)]

theorem AddPracticalAsset_ok (ctx : Stub) (id : GoString) (availibility wallet latency : GoInt)
    (habsent : ctx.GetState id = Except.ok none)
    (hput : ctx.putErr id (Marshal { ID := id, Availibility := availibility, Wallet := wallet, Latency := latency }) = none) :
    AddPracticalAsset ctx id availibility wallet latency
      = (Except.ok (), ctx.store id (Marshal { ID := id, Availibility := availibility, Wallet := wallet, Latency := latency })) := by
  simp only [AddPracticalAsset, AssetExists_ok ctx id none habsent, Option.isSome_none,
    Bool.false_eq_true, if_false, PutState_ok ctx id _ hput]

theorem UpdateAsset_ok (ctx : Stub) (id : GoString) (availibility wallet latency : GoInt)
    (value : Bytes) (hpresent : ctx.GetState id = Except.ok (some value))
    (hput : ctx.putErr id (Marshal { ID := id, Availibility := availibility, Wallet := wallet, Latency := latency }) = none) :
    UpdateAsset ctx id availibility wallet latency
      = (Except.ok (), ctx.store id (Marshal { ID := id, Availibility := availibility, Wallet := wallet, Latency := latency })) := by
  simp only [UpdateAsset, AssetExists_ok ctx id _ hpresent, Option.isSome_some, Bool.not_true,
    Bool.false_eq_true, if_false, PutState_ok ctx id _ hput]

theorem DeleteAsset_ok (ctx : Stub) (id : GoString) (value : Bytes)
    (hpresent : ctx.GetState id = Except.ok (some value)) (hdel : ctx.delErr id = none) :
    DeleteAsset ctx id = (Except.ok (), ctx.remove id) := by
  simp only [DeleteAsset, AssetExists_ok ctx id _ hpresent, Option.isSome_some, Bool.not_true,
    Bool.false_eq_true, if_false, DelState_ok ctx id hdel]

theorem TransferRefund_ok (ctx : Stub) (id : GoString) (newWallet : GoInt) (value : Bytes)
    (r : Asset) (hpresent : ctx.GetState id = Except.ok (some value))
    (hdec : Unmarshal value = Except.ok r)
    (hput : ctx.putErr id (Marshal { r with Wallet := newWallet }) = none) :
    TransferRefund ctx id newWallet
      = (Except.ok r.Wallet, ctx.store id (Marshal { r with Wallet := newWallet })) := by
  simp only [TransferRefund, ReadAsset_ok ctx id value r hpresent hdec,
    PutState_ok ctx id _ hput]

/-! ## The contract -/

/-- C1 (amended): for every ledger in which no value is present at `id` and
which accepts the write of the new record, for every `id` that is valid UTF-8
and for all `int` arguments, `AddPracticalAsset` succeeds and `ReadAsset(id)` on
the resulting ledger returns exactly the record built from the arguments. -/
theorem AddPracticalAsset_then_ReadAsset (ctx : Stub) (id : GoString)
    (availibility wallet latency : GoInt)
    (habsent : ctx.GetState id = Except.ok none)
    (hvalid : ValidUTF8 id)
    (hput : ctx.putErr id (Marshal { ID := id, Availibility := availibility, Wallet := wallet, Latency := latency }) = none) :
    (AddPracticalAsset ctx id availibility wallet latency).1 = Except.ok () ∧
    (ReadAsset (AddPracticalAsset ctx id availibility wallet latency).2 id).1
      = Except.ok { ID := id, Availibility := availibility, Wallet := wallet, Latency := latency } := by
  obtain ⟨hg, _⟩ := GetState_ok ctx id none habsent
  rw [AddPracticalAsset_ok ctx id availibility wallet latency habsent hput]
  exact ⟨rfl, ReadAsset_after_put ctx id _ hg hvalid⟩

/-- Witness of C1 (amended): creating `asset2` on the empty ledger. -/
theorem AddPracticalAsset_then_ReadAsset_witness :
    emptyLedger.GetState (str "asset2") = Except.ok none ∧
    (AddPracticalAsset emptyLedger (str "asset2") zeroInt zeroInt zeroInt).1 = Except.ok () ∧
    (ReadAsset (AddPracticalAsset emptyLedger (str "asset2") zeroInt zeroInt zeroInt).2 (str "asset2")).1
      = Except.ok { ID := (str "asset2"), Availibility := zeroInt, Wallet := zeroInt, Latency := zeroInt } :=
  ⟨rfl, AddPracticalAsset_then_ReadAsset emptyLedger (str "asset2") zeroInt zeroInt zeroInt rfl
    (ValidUTF8_str "asset2") rfl⟩

/-- Counterexamples to C1 as stated. First, no value is present at `asset2`, yet
the ledger refuses the write and `AddPracticalAsset` returns that error.
Second, on the empty ledger, which accepts every write, `AddPracticalAsset` at
the key `badKey`, the single byte `0xFF`, succeeds, but `ReadAsset` at that key
returns a record whose `ID` is U+FFFD and not the key. -/
theorem AddPracticalAsset_refused_or_altered :
    (refusingLedger.GetState (str "asset2") = Except.ok none ∧
      (AddPracticalAsset refusingLedger (str "asset2") zeroInt zeroInt zeroInt).1
        = Except.error (GoError.stub (str "ledger unavailable")) ∧
      (AddPracticalAsset refusingLedger (str "asset2") zeroInt zeroInt zeroInt).1
        ≠ Except.ok ()) ∧
    (emptyLedger.GetState badKey = Except.ok none ∧
      (AddPracticalAsset emptyLedger badKey zeroInt zeroInt zeroInt).1 = Except.ok () ∧
      (ReadAsset (AddPracticalAsset emptyLedger badKey zeroInt zeroInt zeroInt).2 badKey).1
        = Except.ok { ID := replacementChar, Availibility := zeroInt, Wallet := zeroInt, Latency := zeroInt } ∧
      (ReadAsset (AddPracticalAsset emptyLedger badKey zeroInt zeroInt zeroInt).2 badKey).1
        ≠ Except.ok { ID := badKey, Availibility := zeroInt, Wallet := zeroInt, Latency := zeroInt }) := by
  refine ⟨⟨rfl, rfl, ?_⟩, rfl, rfl, rfl, ?_⟩
  · intro h
    have h2 : (AddPracticalAsset refusingLedger (str "asset2") zeroInt zeroInt zeroInt).1
        = Except.error (GoError.stub (str "ledger unavailable")) := rfl
    rw [h2] at h
    cases h
  · intro h
    have h2 : (ReadAsset (AddPracticalAsset emptyLedger badKey zeroInt zeroInt zeroInt).2 badKey).1
        = Except.ok { ID := replacementChar, Availibility := zeroInt, Wallet := zeroInt, Latency := zeroInt } := rfl
    rw [h2] at h
    injection h with h
    have hid := congrArg Asset.ID h
    revert hid
    decide

/-- C2: when a value is present at `id`, `AddPracticalAsset` fails with the
"already exists" error and leaves the ledger as it was, whatever the other
arguments are. -/
theorem AddPracticalAsset_existing (ctx : Stub) (id : GoString)
    (availibility wallet latency : GoInt) (value : Bytes)
    (hpresent : ctx.GetState id = Except.ok (some value)) :
    AddPracticalAsset ctx id availibility wallet latency
      = (Except.error (GoError.errorf ((str "the asset ") ++ id ++ (str " already exists"))), ctx) := by
  simp only [AddPracticalAsset, AssetExists, hpresent, Option.isSome_some, if_true]

/-- Witness of C2: a second creation of `asset1` on the seeded ledger. -/
theorem AddPracticalAsset_existing_witness :
    seededLedger.GetState (str "asset1") = Except.ok (seededLedger.state (str "asset1")) ∧
    AddPracticalAsset seededLedger (str "asset1") zeroInt zeroInt zeroInt
      = (Except.error (GoError.errorf ((str "the asset ") ++ (str "asset1") ++ (str " already exists"))),
          seededLedger) :=
  ⟨rfl, AddPracticalAsset_existing seededLedger (str "asset1") zeroInt zeroInt zeroInt _ rfl⟩

/-- C3 (amended): when the value at `id` decodes to an asset `r` and the ledger
accepts the write of the updated record, `TransferRefund(id, newWallet)`
succeeds and returns `r.Wallet`, and `ReadAsset(id)` on the resulting ledger
returns `r` with `Wallet` replaced by `newWallet` and the other three fields
unchanged. -/
theorem TransferRefund_then_ReadAsset (ctx : Stub) (id : GoString) (newWallet : GoInt)
    (value : Bytes) (r : Asset)
    (hpresent : ctx.GetState id = Except.ok (some value))
    (hdec : Unmarshal value = Except.ok r)
    (hput : ctx.putErr id (Marshal { r with Wallet := newWallet }) = none) :
    (TransferRefund ctx id newWallet).1 = Except.ok r.Wallet ∧
    (ReadAsset (TransferRefund ctx id newWallet).2 id).1
      = Except.ok { Availibility := r.Availibility, ID := r.ID, Wallet := newWallet, Latency := r.Latency } := by
  obtain ⟨hg, _⟩ := GetState_ok ctx id _ hpresent
  rw [TransferRefund_ok ctx id newWallet value r hpresent hdec hput]
  exact ⟨rfl, ReadAsset_after_put ctx id _ hg (Unmarshal_valid_ID value r hdec)⟩

/-- Witness of C3 (amended): a refund on the seed record. -/
theorem TransferRefund_then_ReadAsset_witness :
    seededLedger.GetState (str "asset1") = Except.ok (seededLedger.state (str "asset1")) ∧
    (TransferRefund seededLedger (str "asset1") zeroInt).1 = Except.ok seedAsset.Wallet ∧
    (ReadAsset (TransferRefund seededLedger (str "asset1") zeroInt).2 (str "asset1")).1
      = Except.ok { Availibility := seedAsset.Availibility, ID := seedAsset.ID, Wallet := zeroInt, Latency := seedAsset.Latency } :=
  ⟨rfl, TransferRefund_then_ReadAsset seededLedger (str "asset1") zeroInt _ seedAsset rfl rfl rfl⟩

/-- Counterexample to C3 as stated: the value at `asset1` decodes to the seed
record, yet the ledger refuses the write and `TransferRefund` returns that
error instead of the old wallet. -/
theorem TransferRefund_write_refused :
    (ReadAsset refusingLedger (str "asset1")).1 = Except.ok seedAsset ∧
    (TransferRefund refusingLedger (str "asset1") zeroInt).1
      = Except.error (GoError.stub (str "ledger unavailable")) ∧
    (TransferRefund refusingLedger (str "asset1") zeroInt).1 ≠ Except.ok seedAsset.Wallet := by
  have h : (TransferRefund refusingLedger (str "asset1") zeroInt).1
      = Except.error (GoError.stub (str "ledger unavailable")) := rfl
  refine ⟨rfl, h, ?_⟩
  rw [h]
  intro hc
  cases hc

/-- C4: when the value at `id` is absent, `TransferRefund` returns the "does not
exist" error; when it is present but does not decode to an asset, it returns
the decode error; in both cases the ledger is left as it was. -/
theorem TransferRefund_failure (ctx : Stub) (id : GoString) (newWallet : GoInt) :
    (ctx.GetState id = Except.ok none →
      TransferRefund ctx id newWallet
        = (Except.error (GoError.errorf ((str "the asset ") ++ id ++ (str " does not exist"))), ctx)) ∧
    (∀ (value : Bytes) (e : GoError), ctx.GetState id = Except.ok (some value) →
      Unmarshal value = Except.error e →
      TransferRefund ctx id newWallet = (Except.error e, ctx)) := by
  constructor
  · intro habsent
    simp only [TransferRefund, ReadAsset_absent ctx id habsent]
  · intro value e hpresent hdec
    simp only [TransferRefund, ReadAsset_undecodable ctx id value e hpresent hdec]

/-- Witness of C4: a refund at a missing key and at a key whose value is not
JSON. -/
theorem TransferRefund_failure_witness :
    TransferRefund emptyLedger (str "asset1") zeroInt
      = (Except.error (GoError.errorf ((str "the asset ") ++ (str "asset1") ++ (str " does not exist"))),
          emptyLedger) ∧
    TransferRefund corruptLedger (str "asset1") zeroInt
      = (Except.error GoError.syntaxError, corruptLedger) :=
  ⟨(TransferRefund_failure emptyLedger (str "asset1") zeroInt).1 rfl,
   (TransferRefund_failure corruptLedger (str "asset1") zeroInt).2 (str "garbage")
      GoError.syntaxError rfl rfl⟩

/-- C5 (amended): when a value is present at `id`, `id` is valid UTF-8 and the
ledger accepts the write of the new record, `UpdateAsset` succeeds and
`ReadAsset(id)` on the resulting ledger returns exactly the record built from
the arguments, whatever was stored before. -/
theorem UpdateAsset_then_ReadAsset (ctx : Stub) (id : GoString)
    (availibility wallet latency : GoInt) (value : Bytes)
    (hpresent : ctx.GetState id = Except.ok (some value))
    (hvalid : ValidUTF8 id)
    (hput : ctx.putErr id (Marshal { ID := id, Availibility := availibility, Wallet := wallet, Latency := latency }) = none) :
    (UpdateAsset ctx id availibility wallet latency).1 = Except.ok () ∧
    (ReadAsset (UpdateAsset ctx id availibility wallet latency).2 id).1
      = Except.ok { ID := id, Availibility := availibility, Wallet := wallet, Latency := latency } := by
  obtain ⟨hg, _⟩ := GetState_ok ctx id _ hpresent
  rw [UpdateAsset_ok ctx id availibility wallet latency value hpresent hput]
  exact ⟨rfl, ReadAsset_after_put ctx id _ hg hvalid⟩

/-- Witness of C5 (amended): an update of the seed record. -/
theorem UpdateAsset_then_ReadAsset_witness :
    seededLedger.GetState (str "asset1") = Except.ok (seededLedger.state (str "asset1")) ∧
    (UpdateAsset seededLedger (str "asset1") zeroInt zeroInt zeroInt).1 = Except.ok () ∧
    (ReadAsset (UpdateAsset seededLedger (str "asset1") zeroInt zeroInt zeroInt).2 (str "asset1")).1
      = Except.ok { ID := (str "asset1"), Availibility := zeroInt, Wallet := zeroInt, Latency := zeroInt } :=
  ⟨rfl, UpdateAsset_then_ReadAsset seededLedger (str "asset1") zeroInt zeroInt zeroInt _ rfl
    (ValidUTF8_str "asset1") rfl⟩

/-- Counterexamples to C5 as stated. First, a value is present at `asset1`, yet
the ledger refuses the write, `UpdateAsset` returns that error and the record
is not replaced. Second, on a ledger that accepts every write and holds a
value at the key `badKey`, the single byte `0xFF`, `UpdateAsset` at that key
succeeds, but `ReadAsset` at that key returns a record whose `ID` is U+FFFD and
not the key. -/
theorem UpdateAsset_refused_or_altered :
    ((AssetExists refusingLedger (str "asset1")).1 = Except.ok true ∧
      (UpdateAsset refusingLedger (str "asset1") zeroInt zeroInt zeroInt).1
        = Except.error (GoError.stub (str "ledger unavailable")) ∧
      (ReadAsset (UpdateAsset refusingLedger (str "asset1") zeroInt zeroInt zeroInt).2
        (str "asset1")).1 = Except.ok seedAsset) ∧
    ((AssetExists badKeyLedger badKey).1 = Except.ok true ∧
      (UpdateAsset badKeyLedger badKey zeroInt zeroInt zeroInt).1 = Except.ok () ∧
      (ReadAsset (UpdateAsset badKeyLedger badKey zeroInt zeroInt zeroInt).2 badKey).1
        = Except.ok { ID := replacementChar, Availibility := zeroInt, Wallet := zeroInt, Latency := zeroInt } ∧
      (ReadAsset (UpdateAsset badKeyLedger badKey zeroInt zeroInt zeroInt).2 badKey).1
        ≠ Except.ok { ID := badKey, Availibility := zeroInt, Wallet := zeroInt, Latency := zeroInt }) := by
  refine ⟨⟨rfl, rfl, rfl⟩, rfl, rfl, rfl, ?_⟩
  intro h
  have h2 : (ReadAsset (UpdateAsset badKeyLedger badKey zeroInt zeroInt zeroInt).2 badKey).1
      = Except.ok { ID := replacementChar, Availibility := zeroInt, Wallet := zeroInt, Latency := zeroInt } := rfl
  rw [h2] at h
  injection h with h
  have hid := congrArg Asset.ID h
  revert hid
  decide

/-- C6: when no value is present at `id`, `UpdateAsset` fails with the "does not
exist" error and leaves the ledger as it was, so `AssetExists(id)` is still
false afterwards. -/
theorem UpdateAsset_missing (ctx : Stub) (id : GoString) (availibility wallet latency : GoInt)
    (habsent : ctx.GetState id = Except.ok none) :
    UpdateAsset ctx id availibility wallet latency
      = (Except.error (GoError.errorf ((str "the asset ") ++ id ++ (str " does not exist"))), ctx) ∧
    (AssetExists (UpdateAsset ctx id availibility wallet latency).2 id).1 = Except.ok false := by
  have h : UpdateAsset ctx id availibility wallet latency
      = (Except.error (GoError.errorf ((str "the asset ") ++ id ++ (str " does not exist"))), ctx) := by
    simp only [UpdateAsset, AssetExists_ok ctx id none habsent, Option.isSome_none,
      Bool.not_false, if_true]
  rw [h]
  exact ⟨rfl, by rw [AssetExists_ok ctx id none habsent]; rfl⟩

/-- Witness of C6: an update at a key of the empty ledger. -/
theorem UpdateAsset_missing_witness :
    emptyLedger.GetState (str "asset1") = Except.ok none ∧
    UpdateAsset emptyLedger (str "asset1") zeroInt zeroInt zeroInt
      = (Except.error (GoError.errorf ((str "the asset ") ++ (str "asset1") ++ (str " does not exist"))),
          emptyLedger) ∧
    (AssetExists (UpdateAsset emptyLedger (str "asset1") zeroInt zeroInt zeroInt).2 (str "asset1")).1
      = Except.ok false :=
  ⟨rfl, UpdateAsset_missing emptyLedger (str "asset1") zeroInt zeroInt zeroInt rfl⟩

/-- C7 (amended): when a value is present at `id` and the ledger accepts the
delete, `DeleteAsset` succeeds and removes the key: on the resulting ledger
`AssetExists(id)` returns false and `ReadAsset(id)` fails with the "does not
exist" error. -/
theorem DeleteAsset_then_absent (ctx : Stub) (id : GoString) (value : Bytes)
    (hpresent : ctx.GetState id = Except.ok (some value))
    (hdel : ctx.delErr id = none) :
    (DeleteAsset ctx id).1 = Except.ok () ∧
    (AssetExists (DeleteAsset ctx id).2 id).1 = Except.ok false ∧
    (ReadAsset (DeleteAsset ctx id).2 id).1
      = Except.error (GoError.errorf ((str "the asset ") ++ id ++ (str " does not exist"))) := by
  obtain ⟨hg, _⟩ := GetState_ok ctx id _ hpresent
  have hafter := GetState_after_del ctx id hg
  rw [DeleteAsset_ok ctx id value hpresent hdel]
  refine ⟨rfl, ?_, ?_⟩
  · rw [AssetExists_ok _ id none hafter]; rfl
  · rw [ReadAsset_absent _ id hafter]

/-- Witness of C7 (amended): deleting the seed record. -/
theorem DeleteAsset_then_absent_witness :
    seededLedger.GetState (str "asset1") = Except.ok (seededLedger.state (str "asset1")) ∧
    (DeleteAsset seededLedger (str "asset1")).1 = Except.ok () ∧
    (AssetExists (DeleteAsset seededLedger (str "asset1")).2 (str "asset1")).1 = Except.ok false ∧
    (ReadAsset (DeleteAsset seededLedger (str "asset1")).2 (str "asset1")).1
      = Except.error (GoError.errorf ((str "the asset ") ++ (str "asset1") ++ (str " does not exist"))) :=
  ⟨rfl, DeleteAsset_then_absent seededLedger (str "asset1") _ rfl rfl⟩

/-- Counterexample to C7 as stated: a value is present at `asset1`, yet the
ledger refuses the delete, `DeleteAsset` returns that error and the key is
still there. -/
theorem DeleteAsset_delete_refused :
    (AssetExists refusingLedger (str "asset1")).1 = Except.ok true ∧
    (DeleteAsset refusingLedger (str "asset1")).1
      = Except.error (GoError.stub (str "ledger unavailable")) ∧
    (AssetExists (DeleteAsset refusingLedger (str "asset1")).2 (str "asset1")).1 = Except.ok true :=
  ⟨rfl, rfl, rfl⟩

/-- C8: when no value is present at `id`, `DeleteAsset` fails with the "does not
exist" error and leaves the ledger as it was. -/
theorem DeleteAsset_missing (ctx : Stub) (id : GoString)
    (habsent : ctx.GetState id = Except.ok none) :
    DeleteAsset ctx id
      = (Except.error (GoError.errorf ((str "the asset ") ++ id ++ (str " does not exist"))), ctx) := by
  simp only [DeleteAsset, AssetExists_ok ctx id none habsent, Option.isSome_none,
    Bool.not_false, if_true]

/-- Witness of C8: a delete at a key of the empty ledger. -/
theorem DeleteAsset_missing_witness :
    emptyLedger.GetState (str "asset1") = Except.ok none ∧
    DeleteAsset emptyLedger (str "asset1")
      = (Except.error (GoError.errorf ((str "the asset ") ++ (str "asset1") ++ (str " does not exist"))),
          emptyLedger) :=
  ⟨rfl, DeleteAsset_missing emptyLedger (str "asset1") rfl⟩

/-- C9: `ReadAsset(id)` returns an error exactly when the ledger read fails, when
no value is present at `id` (the "does not exist" error) or when the value
present does not decode to an asset (the decode error); in every other case it
returns the record the stored value decodes to. It never changes the ledger. -/
theorem ReadAsset_cases (ctx : Stub) (id : GoString) :
    ((∃ e, (ReadAsset ctx id).1 = Except.error e) ↔
      ((∃ err, ctx.GetState id = Except.error err) ∨ ctx.GetState id = Except.ok none ∨
        ∃ value e, ctx.GetState id = Except.ok (some value) ∧ Unmarshal value = Except.error e)) ∧
    (∀ err, ctx.GetState id = Except.error err →
      (ReadAsset ctx id).1
        = Except.error (GoError.errorf ((str "failed to read from world state: ") ++ err))) ∧
    (ctx.GetState id = Except.ok none →
      (ReadAsset ctx id).1
        = Except.error (GoError.errorf ((str "the asset ") ++ id ++ (str " does not exist")))) ∧
    (∀ value, ctx.GetState id = Except.ok (some value) →
      (ReadAsset ctx id).1 = Unmarshal value) ∧
    (ReadAsset ctx id).2 = ctx := by
  have hread : ∀ err, ctx.GetState id = Except.error err →
      ReadAsset ctx id
        = (Except.error (GoError.errorf ((str "failed to read from world state: ") ++ err)), ctx) := by
    intro err h
    simp only [ReadAsset, h]
  have hvalue : ∀ value, ctx.GetState id = Except.ok (some value) →
      ReadAsset ctx id = (Unmarshal value, ctx) := by
    intro value h
    cases hdec : Unmarshal value with
    | error e => exact ReadAsset_undecodable ctx id value e h hdec
    | ok r => exact ReadAsset_ok ctx id value r h hdec
  refine ⟨?_, fun err h => by rw [hread err h], fun h => by rw [ReadAsset_absent ctx id h],
    fun value h => by rw [hvalue value h], ?_⟩
  · cases hget : ctx.GetState id with
    | error err =>
      rw [hread err hget]
      exact ⟨fun _ => Or.inl ⟨err, rfl⟩, fun _ => ⟨_, rfl⟩⟩
    | ok ov =>
      cases ov with
      | none =>
        rw [ReadAsset_absent ctx id hget]
        exact ⟨fun _ => Or.inr (Or.inl rfl), fun _ => ⟨_, rfl⟩⟩
      | some value =>
        rw [hvalue value hget]
        constructor
        · rintro ⟨e, he⟩
          exact Or.inr (Or.inr ⟨value, e, rfl, he⟩)
        · rintro (⟨err, h⟩ | h | ⟨v, e, hv, he⟩)
          · cases h
          · cases h
          · injection hv with hv
            injection hv with hv
            subst hv
            exact ⟨e, he⟩
  · cases hget : ctx.GetState id with
    | error err => rw [hread err hget]
    | ok ov =>
      cases ov with
      | none => rw [ReadAsset_absent ctx id hget]
      | some value => rw [hvalue value hget]

/-- Witness of C9: the three error cases and the success case of `ReadAsset`. -/
theorem ReadAsset_cases_witness :
    (ReadAsset unreadableLedger (str "asset1")).1
      = Except.error (GoError.errorf ((str "failed to read from world state: ") ++ (str "ledger unavailable"))) ∧
    (ReadAsset emptyLedger (str "asset1")).1
      = Except.error (GoError.errorf ((str "the asset ") ++ (str "asset1") ++ (str " does not exist"))) ∧
    (ReadAsset corruptLedger (str "asset1")).1 = Unmarshal (str "garbage") ∧
    (ReadAsset seededLedger (str "asset1")).1 = Except.ok seedAsset :=
  ⟨(ReadAsset_cases unreadableLedger (str "asset1")).2.1 (str "ledger unavailable") rfl,
   (ReadAsset_cases emptyLedger (str "asset1")).2.2.1 rfl,
   (ReadAsset_cases corruptLedger (str "asset1")).2.2.2.1 (str "garbage") rfl,
   ((ReadAsset_cases seededLedger (str "asset1")).2.2.2.1 _ rfl).trans rfl⟩

/-- C10: when the ledger read succeeds, `AssetExists(id)` returns no error and
returns true if and only if a value is present at `id`; a missing key yields
false; and `AssetExists` returns an error exactly when the ledger read fails. It
never changes the ledger. -/
theorem AssetExists_cases (ctx : Stub) (id : GoString) :
    ((AssetExists ctx id).1 = Except.ok true ↔ ∃ value, ctx.GetState id = Except.ok (some value)) ∧
    ((AssetExists ctx id).1 = Except.ok false ↔ ctx.GetState id = Except.ok none) ∧
    ((∃ e, (AssetExists ctx id).1 = Except.error e) ↔ ∃ err, ctx.GetState id = Except.error err) ∧
    (AssetExists ctx id).2 = ctx := by
  cases hget : ctx.GetState id with
  | error err =>
    have h : AssetExists ctx id
        = (Except.error (GoError.errorf ((str "failed to read from world state: ") ++ err)), ctx) := by
      simp only [AssetExists, hget]
    rw [h]
    simp
  | ok ov =>
    rw [AssetExists_ok ctx id ov hget]
    cases ov with
    | none => simp
    | some value => simp

/-! ## What each operation does to the ledger -/

theorem AssetExists_ledger (ctx : Stub) (id : GoString) : (AssetExists ctx id).2 = ctx := by
  unfold AssetExists
  split <;> rfl

theorem ReadAsset_ledger (ctx : Stub) (id : GoString) : (ReadAsset ctx id).2 = ctx := by
  unfold ReadAsset
  split
  · rfl
  · rfl
  · split <;> rfl

theorem ComputeParameters_ledger (ctx : Stub) : (ComputeParameters ctx).ctx = ctx := by
  have h1 := ReadAsset_ledger ctx (str "asset1")
  have h2 := ReadAsset_ledger ctx (str "asset2")
  unfold ComputeParameters
  split
  · rename_i err ctx1 heq
    rw [heq] at h1
    exact h1
  · rename_i asset ctx1 heq
    rw [heq] at h1
    simp only at h1
    subst h1
    simp only [lt_self_iff_false, if_false]
    exact h2

theorem InitContract_ledger (ctx : Stub) :
    (InitContract ctx).2 = ctx ∨
      (InitContract ctx).2 = ctx.store (str "asset1") (Marshal seedAsset) := by
  unfold InitContract
  simp only [initLoop]
  cases h : ctx.PutState seedAsset.ID (Marshal seedAsset) with
  | error err => exact Or.inl rfl
  | ok ctx1 =>
    right
    unfold Stub.PutState at h
    split at h
    · cases h
    · injection h with h
      subst h
      rfl

theorem AddPracticalAsset_ledger (ctx : Stub) (id : GoString) (availibility wallet latency : GoInt) :
    (AddPracticalAsset ctx id availibility wallet latency).2 = ctx ∨
      (AddPracticalAsset ctx id availibility wallet latency).2
        = ctx.store id (Marshal { ID := id, Availibility := availibility, Wallet := wallet, Latency := latency }) := by
  unfold AddPracticalAsset AssetExists Stub.PutState
  cases ctx.GetState id with
  | error err => exact Or.inl rfl
  | ok ov =>
    cases ov with
    | some v => exact Or.inl rfl
    | none =>
      simp only [Option.isSome_none, Bool.false_eq_true, if_false]
      split
      · rename_i h
        split at h
        · exact Or.inl rfl
        · cases h
      · rename_i h
        split at h
        · cases h
        · injection h with h
          subst h
          exact Or.inr rfl

theorem UpdateAsset_ledger (ctx : Stub) (id : GoString) (availibility wallet latency : GoInt) :
    (UpdateAsset ctx id availibility wallet latency).2 = ctx ∨
      ((∃ v, ctx.state id = some v) ∧
        (UpdateAsset ctx id availibility wallet latency).2
          = ctx.store id (Marshal { ID := id, Availibility := availibility, Wallet := wallet, Latency := latency })) := by
  cases hget : ctx.GetState id with
  | error err =>
    left
    simp only [UpdateAsset, AssetExists, hget]
  | ok ov =>
    cases ov with
    | none =>
      left
      simp only [UpdateAsset, AssetExists_ok ctx id none hget, Option.isSome_none,
        Bool.not_false, if_true]
    | some v =>
      cases hput : ctx.putErr id (Marshal { ID := id, Availibility := availibility, Wallet := wallet, Latency := latency }) with
      | some err =>
        left
        simp only [UpdateAsset, AssetExists_ok ctx id _ hget, Option.isSome_some, Bool.not_true,
          Bool.false_eq_true, if_false, Stub.PutState, hput]
      | none =>
        right
        refine ⟨⟨v, (GetState_ok ctx id _ hget).2⟩, ?_⟩
        rw [UpdateAsset_ok ctx id availibility wallet latency v hget hput]

theorem DeleteAsset_ledger (ctx : Stub) (id : GoString) :
    (DeleteAsset ctx id).2 = ctx ∨ (DeleteAsset ctx id).2 = ctx.remove id := by
  unfold DeleteAsset AssetExists Stub.DelState
  cases ctx.GetState id with
  | error err => exact Or.inl rfl
  | ok ov =>
    cases ov with
    | none => exact Or.inl rfl
    | some v =>
      simp only [Option.isSome_some, Bool.not_true, Bool.false_eq_true, if_false]
      split
      · rename_i h
        split at h
        · exact Or.inl rfl
        · cases h
      · rename_i h
        split at h
        · cases h
        · injection h with h
          subst h
          exact Or.inr rfl

theorem TransferRefund_ledger (ctx : Stub) (id : GoString) (newWallet : GoInt) :
    (TransferRefund ctx id newWallet).2 = ctx ∨
      ∃ v r, ctx.state id = some v ∧ Unmarshal v = Except.ok r ∧
        (TransferRefund ctx id newWallet).2 = ctx.store id (Marshal { r with Wallet := newWallet }) := by
  cases hget : ctx.GetState id with
  | error err =>
    left
    simp only [TransferRefund, ReadAsset, hget]
  | ok ov =>
    cases ov with
    | none =>
      left
      simp only [TransferRefund, ReadAsset_absent ctx id hget]
    | some v =>
      cases hdec : Unmarshal v with
      | error e =>
        left
        simp only [TransferRefund, ReadAsset_undecodable ctx id v e hget hdec]
      | ok r =>
        cases hput : ctx.putErr id (Marshal { r with Wallet := newWallet }) with
        | some err =>
          left
          simp only [TransferRefund, ReadAsset_ok ctx id v r hget hdec, Stub.PutState, hput]
        | none =>
          right
          refine ⟨v, r, (GetState_ok ctx id _ hget).2, hdec, ?_⟩
          rw [TransferRefund_ok ctx id newWallet v r hget hdec hput]

theorem InitContract_ok (ctx : Stub) (hput : ctx.putErr (str "asset1") (Marshal seedAsset) = none) :
    InitContract ctx = (Except.ok (), ctx.store (str "asset1") (Marshal seedAsset)) := by
  have h : ctx.PutState seedAsset.ID (Marshal seedAsset)
      = Except.ok (ctx.store (str "asset1") (Marshal seedAsset)) := PutState_ok ctx (str "asset1") _ hput
  simp only [InitContract, initLoop, h]

theorem store_keeps_KeysMatchIDs (ctx : Stub) (key : GoString) (a : Asset)
    (hinv : KeysMatchIDs ctx) (hid : a.ID = key) (hv : ValidUTF8 a.ID) :
    KeysMatchIDs (ctx.store key (Marshal a)) := by
  intro k v hk
  simp only [Stub.store] at hk
  by_cases hkey : k = key
  · simp only [hkey, if_true, Option.some.injEq] at hk
    subst hk
    exact ⟨a, Unmarshal_Marshal a hv, by rw [hid, hkey]⟩
  · simp only [hkey, if_false] at hk
    exact hinv k v hk

theorem remove_keeps_KeysMatchIDs (ctx : Stub) (key : GoString) (hinv : KeysMatchIDs ctx) :
    KeysMatchIDs (ctx.remove key) := by
  intro k v hk
  simp only [Stub.remove] at hk
  by_cases hkey : k = key
  · simp [hkey] at hk
  · simp only [hkey, if_false] at hk
    exact hinv k v hk

/-- In a ledger with the property `KeysMatchIDs`, every present key is valid
UTF-8, since it is the `ID` of a decoded asset. -/
theorem KeysMatchIDs_key_valid (ctx : Stub) (hinv : KeysMatchIDs ctx) (k : GoString)
    (v : Bytes) (hk : ctx.state k = some v) : ValidUTF8 k := by
  obtain ⟨r, hdec, hid⟩ := hinv k v hk
  rw [← hid]
  exact Unmarshal_valid_ID v r hdec

theorem runCall_keeps_KeysMatchIDs (c : Call) (ctx : Stub) (hc : validCall c)
    (hinv : KeysMatchIDs ctx) : KeysMatchIDs (runCall c ctx) := by
  cases c with
  | InitContract =>
    rcases InitContract_ledger ctx with h | h
    · simp only [runCall, h]; exact hinv
    · simp only [runCall, h]
      exact store_keeps_KeysMatchIDs ctx _ _ hinv rfl (ValidUTF8_str "asset1")
  | AddPracticalAsset id a w l =>
    rcases AddPracticalAsset_ledger ctx id a w l with h | h
    · simp only [runCall, h]; exact hinv
    · simp only [runCall, h]; exact store_keeps_KeysMatchIDs ctx _ _ hinv rfl hc
  | UpdateAsset id a w l =>
    rcases UpdateAsset_ledger ctx id a w l with h | ⟨⟨v, hv⟩, h⟩
    · simp only [runCall, h]; exact hinv
    · simp only [runCall, h]
      exact store_keeps_KeysMatchIDs ctx _ _ hinv rfl (KeysMatchIDs_key_valid ctx hinv id v hv)
  | DeleteAsset id =>
    rcases DeleteAsset_ledger ctx id with h | h
    · simp only [runCall, h]; exact hinv
    · simp only [runCall, h]; exact remove_keeps_KeysMatchIDs ctx _ hinv
  | TransferRefund id newWallet =>
    rcases TransferRefund_ledger ctx id newWallet with h | ⟨v, r, hv, hdec, h⟩
    · simp only [runCall, h]; exact hinv
    · obtain ⟨r1, hdec1, hid⟩ := hinv id v hv
      rw [hdec] at hdec1
      injection hdec1 with hr
      subst hr
      simp only [runCall, h]
      exact store_keeps_KeysMatchIDs ctx _ _ hinv hid (Unmarshal_valid_ID v r hdec)
  | ComputeParameters =>
    simp only [runCall, ComputeParameters_ledger]
    exact hinv

theorem runCalls_keeps_KeysMatchIDs (calls : List Call) :
    (∀ c ∈ calls, validCall c) → ∀ ctx, KeysMatchIDs ctx →
      KeysMatchIDs (runCalls calls ctx) := by
  induction calls with
  | nil => intro _ ctx h; exact h
  | cons c cs ih =>
    intro hcs ctx h
    exact ih (fun x hx => hcs x (List.mem_cons_of_mem _ hx)) _
      (runCall_keeps_KeysMatchIDs c ctx (hcs c (List.mem_cons_self _ _)) h)

theorem store_other_key (ctx : Stub) (key : GoString) (value : Bytes) (k : GoString)
    (h : k ≠ key) : (ctx.store key value).state k = ctx.state k := by
  simp only [Stub.store, h, if_false]

theorem remove_other_key (ctx : Stub) (key : GoString) (k : GoString) (h : k ≠ key) :
    (ctx.remove key).state k = ctx.state k := by
  simp only [Stub.remove, h, if_false]

theorem fieldNames_Marshal (a : Asset) :
    fieldNames (Marshal a) = some [(str "Availibility"), (str "ID"), (str "Wallet"), (str "Latency")] := by
  obtain ⟨k, hk⟩ : ∃ k, (Marshal a).length + 1 = k + 6 :=
    ⟨(Marshal a).length - 5, by have := Marshal_length a; omega⟩
  unfold fieldNames
  rw [hk, parseValue_Marshal]
  rfl

theorem ComputeParameters_of_read (ctx : Stub) (r : Asset)
    (hread : (ReadAsset ctx (str "asset1")).1 = Except.ok r) :
    (ComputeParameters ctx).printed = (str "") ∧ (ComputeParameters ctx).result = Except.ok (str "") := by
  unfold ComputeParameters
  split
  · rename_i err ctx1 heq
    rw [heq] at hread
    cases hread
  · simp only [lt_self_iff_false, if_false, and_self]

/-! ## The contract, continued -/

/-- C11 (amended): for every prior ledger on which the read of `asset1`
succeeds (whether the key is absent, holds a valid record or holds an
undecodable value) and which accepts the write of the seed record,
`InitContract` succeeds and `ReadAsset("asset1")` on the resulting ledger
returns the seed record, ID `asset1`, availability 99, wallet 100, latency 99. -/
theorem InitContract_then_ReadAsset (ctx : Stub) (prior : Option Bytes)
    (hread : ctx.GetState (str "asset1") = Except.ok prior)
    (hput : ctx.putErr (str "asset1") (Marshal seedAsset) = none) :
    (InitContract ctx).1 = Except.ok () ∧
    (ReadAsset (InitContract ctx).2 (str "asset1")).1 = Except.ok seedAsset ∧
    seedAsset.ID = (str "asset1") ∧ seedAsset.Availibility.val = 99 ∧
    seedAsset.Wallet.val = 100 ∧ seedAsset.Latency.val = 99 := by
  obtain ⟨hg, _⟩ := GetState_ok ctx (str "asset1") _ hread
  rw [InitContract_ok ctx hput]
  exact ⟨rfl, ReadAsset_after_put ctx (str "asset1") seedAsset hg (ValidUTF8_str "asset1"),
    rfl, rfl, rfl, rfl⟩

/-- Witness of C11 (amended): `InitContract` on a ledger whose value at `asset1`
is not a JSON text. -/
theorem InitContract_then_ReadAsset_witness :
    corruptLedger.GetState (str "asset1") = Except.ok (some (str "garbage")) ∧
    (InitContract corruptLedger).1 = Except.ok () ∧
    (ReadAsset (InitContract corruptLedger).2 (str "asset1")).1 = Except.ok seedAsset :=
  ⟨rfl, (InitContract_then_ReadAsset corruptLedger _ rfl rfl).1,
    (InitContract_then_ReadAsset corruptLedger _ rfl rfl).2.1⟩

/-- Counterexample to C11 as stated: the ledger refuses the write,
`InitContract` returns the wrapped error and the ledger is as it was. -/
theorem InitContract_write_refused :
    (InitContract refusingLedger).1
      = Except.error (GoError.errorf ((str "failed to put to world state. ") ++ (str "ledger unavailable"))) ∧
    (InitContract refusingLedger).1 ≠ Except.ok () := by
  have h : (InitContract refusingLedger).1
      = Except.error (GoError.errorf ((str "failed to put to world state. ") ++ (str "ledger unavailable"))) :=
    rfl
  refine ⟨h, ?_⟩
  rw [h]
  intro hc
  cases hc

/-- C12: when `asset1` reads successfully, `ComputeParameters` never signals a
transfer, whatever is stored at `asset2`: it prints nothing and returns the
empty string. -/
theorem ComputeParameters_no_signal (ctx : Stub) (r : Asset)
    (hread : (ReadAsset ctx (str "asset1")).1 = Except.ok r) :
    (ComputeParameters ctx).printed = (str "") ∧ (ComputeParameters ctx).result = Except.ok (str "") :=
  ComputeParameters_of_read ctx r hread

/-- Witness of C12: `asset2` holds a record whose availability, 10, is lower
than the 99 of `asset1`, and still nothing is signalled. -/
theorem ComputeParameters_no_signal_witness :
    (ReadAsset twoAssetLedger (str "asset1")).1 = Except.ok seedAsset ∧
    (ComputeParameters twoAssetLedger).printed = (str "") ∧
    (ComputeParameters twoAssetLedger).result = Except.ok (str "") :=
  ⟨rfl, ComputeParameters_no_signal twoAssetLedger seedAsset rfl⟩

/-- C13: `ComputeParameters` returns an error exactly when `ReadAsset("asset1")`
does, and then the same error; when `asset1` is readable it returns the empty
string and no error, whatever the second read returns. -/
theorem ComputeParameters_error (ctx : Stub) :
    (∀ e, (ReadAsset ctx (str "asset1")).1 = Except.error e →
      (ComputeParameters ctx).result = Except.error e) ∧
    (∀ r, (ReadAsset ctx (str "asset1")).1 = Except.ok r →
      (ComputeParameters ctx).result = Except.ok (str "")) ∧
    ((∃ e, (ComputeParameters ctx).result = Except.error e) ↔
      ∃ e, (ReadAsset ctx (str "asset1")).1 = Except.error e) := by
  have herr : ∀ e, (ReadAsset ctx (str "asset1")).1 = Except.error e →
      (ComputeParameters ctx).result = Except.error e := by
    intro e h
    unfold ComputeParameters
    split
    · rename_i err ctx1 heq
      rw [heq] at h
      injection h with h
      rw [h]
    · rename_i asset ctx1 heq
      rw [heq] at h
      cases h
  have hok : ∀ r, (ReadAsset ctx (str "asset1")).1 = Except.ok r →
      (ComputeParameters ctx).result = Except.ok (str "") := fun r h =>
    (ComputeParameters_of_read ctx r h).2
  refine ⟨herr, hok, ?_⟩
  cases h : (ReadAsset ctx (str "asset1")).1 with
  | error e =>
    rw [herr e h]
    exact ⟨fun _ => ⟨e, rfl⟩, fun _ => ⟨e, rfl⟩⟩
  | ok r =>
    rw [hok r h]
    constructor
    · rintro ⟨e, he⟩
      cases he
    · rintro ⟨e, he⟩
      cases he

/-- Witness of C13: `asset1` readable with `asset2` absent, `asset1` readable with
`asset2` undecodable, and `asset1` missing. -/
theorem ComputeParameters_error_witness :
    ((ReadAsset seededLedger (str "asset2")).1
        = Except.error (GoError.errorf ((str "the asset ") ++ (str "asset2") ++ (str " does not exist"))) ∧
      (ComputeParameters seededLedger).result = Except.ok (str "")) ∧
    ((ReadAsset halfCorruptLedger (str "asset2")).1 = Except.error GoError.syntaxError ∧
      (ComputeParameters halfCorruptLedger).result = Except.ok (str "")) ∧
    (ComputeParameters emptyLedger).result
      = Except.error (GoError.errorf ((str "the asset ") ++ (str "asset1") ++ (str " does not exist"))) :=
  ⟨⟨rfl, (ComputeParameters_error seededLedger).2.1 seedAsset rfl⟩,
   ⟨rfl, (ComputeParameters_error halfCorruptLedger).2.1 seedAsset rfl⟩,
   (ComputeParameters_error emptyLedger).1 _ rfl⟩

/-- C14 (as the code has it): for every asset the serialized record lists the
fields in the order in which the struct declares them, `Availibility`, `ID`,
`Wallet`, `Latency`; that order is not alphabetic, since `Latency` comes after
`Wallet`. -/
theorem Marshal_field_order (a : Asset) :
    fieldNames (Marshal a) = some [(str "Availibility"), (str "ID"), (str "Wallet"), (str "Latency")] ∧
    isAlphabetic [(str "Availibility"), (str "ID"), (str "Wallet"), (str "Latency")] = false ∧
    lexLess (str "Latency") (str "Wallet") = true ∧
    isAlphabetic [(str "Availibility"), (str "ID"), (str "Latency"), (str "Wallet")] = true :=
  ⟨fieldNames_Marshal a, by decide, by decide, by decide⟩

/-- C15 (amended): round trip of the record encoding. For every asset `x` whose
`ID` is valid UTF-8, with any `int` values in the other three fields, decoding
the serialized record succeeds and yields a record equal to `x` in all four
fields; serializing cannot fail. -/
theorem Marshal_round_trip (x : Asset) (hvalid : ValidUTF8 x.ID) :
    Unmarshal (Marshal x) = Except.ok x ∧
    ∃ r, Unmarshal (Marshal x) = Except.ok r ∧ r.Availibility = x.Availibility ∧
      r.ID = x.ID ∧ r.Wallet = x.Wallet ∧ r.Latency = x.Latency :=
  ⟨Unmarshal_Marshal x hvalid, x, Unmarshal_Marshal x hvalid, rfl, rfl, rfl, rfl⟩

/-- Witness of C15 (amended): the round trip of a record with a negative field
and an `ID` that needs escapes. -/
theorem Marshal_round_trip_witness :
    Unmarshal (Marshal { ID := str "a\"<é>\\", Availibility := ⟨-5, by decide⟩, Wallet := zeroInt, Latency := zeroInt })
      = Except.ok { ID := str "a\"<é>\\", Availibility := ⟨-5, by decide⟩, Wallet := zeroInt, Latency := zeroInt } :=
  (Marshal_round_trip { ID := str "a\"<é>\\", Availibility := ⟨-5, by decide⟩, Wallet := zeroInt, Latency := zeroInt }
    (ValidUTF8_str "a\"<é>\\")).1

/-- Counterexample to C15 as stated: the record whose `ID` is the single byte
`0xFF`, which is not valid UTF-8, is serialized with the escape of U+FFFD for
that byte, and decoding yields a record whose `ID` is U+FFFD: the `ID` is not
the one that was serialized. For every asset, decoding yields the asset with
each such byte of the `ID` replaced in this way. -/
theorem Marshal_round_trip_invalid_ID :
    Marshal { ID := badKey, Availibility := zeroInt, Wallet := zeroInt, Latency := zeroInt }
      = str "\x7b\"Availibility\":0,\"ID\":\"\\ufffd\",\"Wallet\":0,\"Latency\":0\x7d" ∧
    Unmarshal (Marshal { ID := badKey, Availibility := zeroInt, Wallet := zeroInt, Latency := zeroInt })
      = Except.ok { ID := replacementChar, Availibility := zeroInt, Wallet := zeroInt, Latency := zeroInt } ∧
    replacementChar ≠ badKey ∧
    Unmarshal (Marshal { ID := badKey, Availibility := zeroInt, Wallet := zeroInt, Latency := zeroInt })
      ≠ Except.ok { ID := badKey, Availibility := zeroInt, Wallet := zeroInt, Latency := zeroInt } ∧
    (∀ x : Asset, Unmarshal (Marshal x) = Except.ok { x with ID := replaceInvalid x.ID }) := by
  have h : Unmarshal (Marshal { ID := badKey, Availibility := zeroInt, Wallet := zeroInt, Latency := zeroInt })
      = Except.ok { ID := replacementChar, Availibility := zeroInt, Wallet := zeroInt, Latency := zeroInt } := rfl
  refine ⟨by decide, h, by decide, ?_, Unmarshal_Marshal_any⟩
  rw [h]
  intro hc
  injection hc with hc
  have hid := congrArg Asset.ID hc
  revert hid
  decide

/-- C16 (amended): every operation keeps the property that each present key
holds a value which decodes to an asset whose `ID` is the key,
`AddPracticalAsset` when the `id` it is given is valid UTF-8 and the other
operations for all arguments; and so the property holds in every ledger
reached from one without values by any sequence of calls of `InitContract`,
`AddPracticalAsset`, `UpdateAsset`, `DeleteAsset`, `TransferRefund` and
`ComputeParameters` in which every `id` given to `AddPracticalAsset` is valid
UTF-8. -/
theorem ID_matches_key_invariant :
    (∀ (c : Call) (ctx : Stub), validCall c → KeysMatchIDs ctx →
      KeysMatchIDs (runCall c ctx)) ∧
    (∀ (start : Stub) (calls : List Call), (∀ k, start.state k = none) →
      (∀ c ∈ calls, validCall c) → KeysMatchIDs (runCalls calls start)) := by
  refine ⟨runCall_keeps_KeysMatchIDs, ?_⟩
  intro start calls hempty hvalid
  apply runCalls_keeps_KeysMatchIDs calls hvalid
  intro k v hk
  rw [hempty k] at hk
  cases hk

/-- Witness of C16 (amended): a run of five calls from the empty ledger, one of
them an update at a key that is not valid UTF-8. -/
theorem ID_matches_key_invariant_witness :
    KeysMatchIDs (runCalls [Call.InitContract,
      Call.AddPracticalAsset (str "asset2") zeroInt zeroInt zeroInt,
      Call.UpdateAsset badKey zeroInt zeroInt zeroInt,
      Call.TransferRefund (str "asset1") zeroInt, Call.DeleteAsset (str "asset2")] emptyLedger) :=
  ID_matches_key_invariant.2 emptyLedger _ (fun _ => rfl) (by
    intro c hc
    simp only [List.mem_cons, List.mem_singleton, List.not_mem_nil, or_false] at hc
    rcases hc with h | h | h | h | h
    · rw [h]; trivial
    · rw [h]; exact ValidUTF8_str "asset2"
    · rw [h]; trivial
    · rw [h]; trivial
    · rw [h]; trivial)

/-- Counterexample to C16 as stated: from the empty ledger, the single call
`AddPracticalAsset` with the key `badKey`, the single byte `0xFF`, leaves at
that key a value that decodes to an asset whose `ID` is U+FFFD and not the
key, so the reached ledger does not have the property. -/
theorem ID_differs_from_key_reachable :
    (∀ k, emptyLedger.state k = none) ∧
    (∃ v, (runCalls [Call.AddPracticalAsset badKey zeroInt zeroInt zeroInt] emptyLedger).state
        badKey = some v ∧
      Unmarshal v = Except.ok { ID := replacementChar, Availibility := zeroInt, Wallet := zeroInt, Latency := zeroInt }) ∧
    replacementChar ≠ badKey ∧
    ¬ KeysMatchIDs (runCalls [Call.AddPracticalAsset badKey zeroInt zeroInt zeroInt]
      emptyLedger) := by
  refine ⟨fun _ => rfl, ⟨_, rfl, rfl⟩, by decide, ?_⟩
  intro hinv
  obtain ⟨r, hdec, hid⟩ := hinv badKey _ rfl
  have h : Unmarshal (Marshal { ID := badKey, Availibility := zeroInt, Wallet := zeroInt, Latency := zeroInt })
      = Except.ok { ID := replacementChar, Availibility := zeroInt, Wallet := zeroInt, Latency := zeroInt } := rfl
  rw [h] at hdec
  injection hdec with hdec
  rw [← hdec] at hid
  revert hid
  decide

/-- C17: each operation leaves the ledger as it was or with one write at its own
key, so the value at every other key is unchanged: the key is `id` for
`AddPracticalAsset`, `UpdateAsset`, `DeleteAsset` and `TransferRefund`, and
`asset1` for `InitContract`. -/
theorem one_write_at_own_key (ctx : Stub) (id : GoString) (availibility wallet latency : GoInt)
    (newWallet : GoInt) :
    (((AddPracticalAsset ctx id availibility wallet latency).2 = ctx ∨
        ∃ v, (AddPracticalAsset ctx id availibility wallet latency).2 = ctx.store id v) ∧
      ((UpdateAsset ctx id availibility wallet latency).2 = ctx ∨
        ∃ v, (UpdateAsset ctx id availibility wallet latency).2 = ctx.store id v) ∧
      ((DeleteAsset ctx id).2 = ctx ∨ (DeleteAsset ctx id).2 = ctx.remove id) ∧
      ((TransferRefund ctx id newWallet).2 = ctx ∨
        ∃ v, (TransferRefund ctx id newWallet).2 = ctx.store id v) ∧
      ((InitContract ctx).2 = ctx ∨ ∃ v, (InitContract ctx).2 = ctx.store (str "asset1") v)) ∧
    (∀ k, k ≠ id →
      (AddPracticalAsset ctx id availibility wallet latency).2.state k = ctx.state k ∧
      (UpdateAsset ctx id availibility wallet latency).2.state k = ctx.state k ∧
      (DeleteAsset ctx id).2.state k = ctx.state k ∧
      (TransferRefund ctx id newWallet).2.state k = ctx.state k) ∧
    (∀ k, k ≠ (str "asset1") → (InitContract ctx).2.state k = ctx.state k) := by
  have hadd := AddPracticalAsset_ledger ctx id availibility wallet latency
  have hupd := UpdateAsset_ledger ctx id availibility wallet latency
  have hdel := DeleteAsset_ledger ctx id
  have htra := TransferRefund_ledger ctx id newWallet
  have hini := InitContract_ledger ctx
  refine ⟨⟨?_, ?_, hdel, ?_, ?_⟩, ?_, ?_⟩
  · rcases hadd with h | h
    · exact Or.inl h
    · exact Or.inr ⟨_, h⟩
  · rcases hupd with h | ⟨_, h⟩
    · exact Or.inl h
    · exact Or.inr ⟨_, h⟩
  · rcases htra with h | ⟨v, r, _, _, h⟩
    · exact Or.inl h
    · exact Or.inr ⟨_, h⟩
  · rcases hini with h | h
    · exact Or.inl h
    · exact Or.inr ⟨_, h⟩
  · intro k hk
    refine ⟨?_, ?_, ?_, ?_⟩
    · rcases hadd with h | h
      · rw [h]
      · rw [h, store_other_key ctx id _ k hk]
    · rcases hupd with h | ⟨_, h⟩
      · rw [h]
      · rw [h, store_other_key ctx id _ k hk]
    · rcases hdel with h | h
      · rw [h]
      · rw [h, remove_other_key ctx id k hk]
    · rcases htra with h | ⟨v, r, _, _, h⟩
      · rw [h]
      · rw [h, store_other_key ctx id _ k hk]
  · intro k hk
    rcases hini with h | h
    · rw [h]
    · rw [h, store_other_key ctx (str "asset1") _ k hk]

/-- Witness of C17: a refund at `asset1` leaves the record at `asset2` as it was. -/
theorem one_write_at_own_key_witness :
    (TransferRefund twoAssetLedger (str "asset1") zeroInt).2.state (str "asset2")
      = twoAssetLedger.state (str "asset2") :=
  ((one_write_at_own_key twoAssetLedger (str "asset1") zeroInt zeroInt zeroInt zeroInt).2.1
    (str "asset2") (by decide)).2.2.2

/-- C18 (as the code has it): on the seeded ledger `TransferRefund("asset1", 0)`
stores the new wallet 0 and returns 100, the wallet stored before the call,
not the new wallet. -/
theorem TransferRefund_returns_old_wallet :
    (TransferRefund seededLedger (str "asset1") zeroInt).1 = Except.ok seedAsset.Wallet ∧
    seedAsset.Wallet.val = 100 ∧ zeroInt.val = 0 ∧
    (TransferRefund seededLedger (str "asset1") zeroInt).1 ≠ Except.ok zeroInt ∧
    (ReadAsset (TransferRefund seededLedger (str "asset1") zeroInt).2 (str "asset1")).1
      = Except.ok { seedAsset with Wallet := zeroInt } := by
  have h := TransferRefund_ok seededLedger (str "asset1") zeroInt _ seedAsset rfl rfl rfl
  rw [h]
  refine ⟨rfl, rfl, rfl, ?_,
    ReadAsset_after_put seededLedger (str "asset1") _ rfl (ValidUTF8_str "asset1")⟩
  intro hc
  injection hc with hc
  have hv := congrArg Subtype.val hc
  revert hv
  decide

/-- C19: the query operations are read-only: `AssetExists`, `ReadAsset` and
`ComputeParameters` leave the ledger exactly as it was, whether they succeed or
fail. -/
theorem queries_read_only (ctx : Stub) (id : GoString) :
    (AssetExists ctx id).2 = ctx ∧ (ReadAsset ctx id).2 = ctx ∧
    (ComputeParameters ctx).ctx = ctx :=
  ⟨AssetExists_ledger ctx id, ReadAsset_ledger ctx id, ComputeParameters_ledger ctx⟩

/-- C20 (amended): `UpdateAsset` and `DeleteAsset` check presence only. When the
value at `id` is present but does not decode to an asset, so that `ReadAsset(id)`
fails, and the ledger accepts the write of the new record, `UpdateAsset` succeeds
and afterwards, when `id` is valid UTF-8, `ReadAsset(id)` returns the record
built from the arguments; and when the ledger accepts the delete, `DeleteAsset`
succeeds and removes the key. -/
theorem Update_Delete_ignore_decodability (ctx : Stub) (id : GoString)
    (availibility wallet latency : GoInt) (value : Bytes) (e : GoError)
    (hpresent : ctx.GetState id = Except.ok (some value))
    (hdec : Unmarshal value = Except.error e) :
    (ReadAsset ctx id).1 = Except.error e ∧
    (ctx.putErr id (Marshal { ID := id, Availibility := availibility, Wallet := wallet, Latency := latency }) = none →
      (UpdateAsset ctx id availibility wallet latency).1 = Except.ok () ∧
      (ValidUTF8 id →
        (ReadAsset (UpdateAsset ctx id availibility wallet latency).2 id).1
          = Except.ok { ID := id, Availibility := availibility, Wallet := wallet, Latency := latency })) ∧
    (ctx.delErr id = none →
      (DeleteAsset ctx id).1 = Except.ok () ∧
      (AssetExists (DeleteAsset ctx id).2 id).1 = Except.ok false) := by
  obtain ⟨hg, _⟩ := GetState_ok ctx id _ hpresent
  refine ⟨?_, ?_, ?_⟩
  · rw [ReadAsset_undecodable ctx id value e hpresent hdec]
  · intro hput
    rw [UpdateAsset_ok ctx id availibility wallet latency value hpresent hput]
    exact ⟨rfl, fun hvalid => ReadAsset_after_put ctx id _ hg hvalid⟩
  · intro hdel
    rw [DeleteAsset_ok ctx id value hpresent hdel]
    refine ⟨rfl, ?_⟩
    rw [AssetExists_ok _ id none (GetState_after_del ctx id hg)]
    rfl

/-- Witness of C20 (amended): an update and a delete at a key whose value is not
a JSON text. -/
theorem Update_Delete_ignore_decodability_witness :
    (ReadAsset corruptLedger (str "asset1")).1 = Except.error GoError.syntaxError ∧
    ((UpdateAsset corruptLedger (str "asset1") zeroInt zeroInt zeroInt).1 = Except.ok () ∧
      (ReadAsset (UpdateAsset corruptLedger (str "asset1") zeroInt zeroInt zeroInt).2 (str "asset1")).1
        = Except.ok { ID := (str "asset1"), Availibility := zeroInt, Wallet := zeroInt, Latency := zeroInt }) ∧
    ((DeleteAsset corruptLedger (str "asset1")).1 = Except.ok () ∧
      (AssetExists (DeleteAsset corruptLedger (str "asset1")).2 (str "asset1")).1 = Except.ok false) :=
  ⟨(Update_Delete_ignore_decodability corruptLedger (str "asset1") zeroInt zeroInt zeroInt
      (str "garbage") GoError.syntaxError rfl rfl).1,
   ⟨((Update_Delete_ignore_decodability corruptLedger (str "asset1") zeroInt zeroInt zeroInt
      (str "garbage") GoError.syntaxError rfl rfl).2.1 rfl).1,
    ((Update_Delete_ignore_decodability corruptLedger (str "asset1") zeroInt zeroInt zeroInt
      (str "garbage") GoError.syntaxError rfl rfl).2.1 rfl).2 (ValidUTF8_str "asset1")⟩,
   (Update_Delete_ignore_decodability corruptLedger (str "asset1") zeroInt zeroInt zeroInt
      (str "garbage") GoError.syntaxError rfl rfl).2.2 rfl⟩

/-- Counterexamples to C20 as stated. First, the value at `asset1` is present
and does not decode, yet the ledger refuses the write and the delete, so
`UpdateAsset` and `DeleteAsset` return that error and the value stays. Second,
on a ledger that accepts every write and holds a value that does not decode at
the key `badKey`, the single byte `0xFF`, `UpdateAsset` at that key succeeds,
but afterwards `ReadAsset` at that key returns a record whose `ID` is U+FFFD
and not the key. -/
theorem Update_Delete_refused_or_altered :
    ((AssetExists corruptRefusingLedger (str "asset1")).1 = Except.ok true ∧
      (ReadAsset corruptRefusingLedger (str "asset1")).1 = Except.error GoError.syntaxError ∧
      (UpdateAsset corruptRefusingLedger (str "asset1") zeroInt zeroInt zeroInt).1
        = Except.error (GoError.stub (str "ledger unavailable")) ∧
      (DeleteAsset corruptRefusingLedger (str "asset1")).1
        = Except.error (GoError.stub (str "ledger unavailable")) ∧
      (AssetExists (DeleteAsset corruptRefusingLedger (str "asset1")).2 (str "asset1")).1
        = Except.ok true) ∧
    ((AssetExists corruptBadKeyLedger badKey).1 = Except.ok true ∧
      (ReadAsset corruptBadKeyLedger badKey).1 = Except.error GoError.syntaxError ∧
      (UpdateAsset corruptBadKeyLedger badKey zeroInt zeroInt zeroInt).1 = Except.ok () ∧
      (ReadAsset (UpdateAsset corruptBadKeyLedger badKey zeroInt zeroInt zeroInt).2 badKey).1
        = Except.ok { ID := replacementChar, Availibility := zeroInt, Wallet := zeroInt, Latency := zeroInt } ∧
      (ReadAsset (UpdateAsset corruptBadKeyLedger badKey zeroInt zeroInt zeroInt).2 badKey).1
        ≠ Except.ok { ID := badKey, Availibility := zeroInt, Wallet := zeroInt, Latency := zeroInt }) := by
  refine ⟨⟨rfl, rfl, rfl, rfl, rfl⟩, rfl, rfl, rfl, rfl, ?_⟩
  intro h
  have h2 : (ReadAsset (UpdateAsset corruptBadKeyLedger badKey zeroInt zeroInt zeroInt).2 badKey).1
      = Except.ok { ID := replacementChar, Availibility := zeroInt, Wallet := zeroInt, Latency := zeroInt } := rfl
  rw [h2] at h
  injection h with h
  have hid := congrArg Asset.ID h
  revert hid
  decide

end Chaincode
